import Mathlib

/-!
# httpx: the bind-validate-translate pipeline

A shallow embedding of `v1/bind.go`, `v1/init.go`, `v1/interfaces.go` and
`v1/response.go`.

* Go strings (header values, field names, locale codes) are Lean strings.
* A request body is the list of bytes its reader delivers, followed by the
  error that ends the stream (`io.EOF` for a complete body).
* The parts of the Go standard library that `BindValidate` drives directly
  (`http.MaxBytesReader`, the scanner of `encoding/json`, `Decoder.Decode`,
  `Decoder.More`, `errors.Is`, `errors.As`) are embedded as executable
  definitions; the third-party validator and translator and the
  reflection-driven code (unmarshalling into `T`, `Validate.Struct`) are
  fields of `VLib` and `Codec`.
* Effects are made explicit: every call returns the list of library calls it
  made, in order.
* A library call that can panic returns an `Outcome`; the result of
  `BindValidate` records the panic that ends the call, if one does.
-/

namespace Httpx

/-! ## Errors -/

/-- One element of `validator.ValidationErrors`: the data behind the
`validator.FieldError` interface. -/
structure FieldError where
  /-- Result of `fe.Namespace()`. -/
  Namespace : String
  /-- Result of `fe.Field()`. -/
  Field : String
  /-- Result of `fe.Tag()`. -/
  Tag : String
  /-- Result of `fe.Param()`. -/
  Param : String
  deriving DecidableEq, Repr

/-- The data of a `*json.SyntaxError`: "invalid character `c` `context`", and
the offset. -/
structure SyntaxError where
  c : UInt8
  context : String
  Offset : Nat
  deriving DecidableEq, Repr

/-- Go `error` values that reach `BindValidate` and `RegisterCustomValidator`. -/
inductive GoError where
  /-- `errDecode` of `bind.go`. -/
  | errDecode
  /-- `errValidatorUnset` of `bind.go`. -/
  | errValidatorUnset
  /-- Modelled from the spec: `ErrValidatorUnset`, the exported validator-unset
  error that `init.go` returns; its declaration is not among the source files.
  The spec names the failure `ValidatorUnset`. -/
  | ErrValidatorUnset
  /-- `io.EOF`. -/
  | EOF
  /-- `io.ErrUnexpectedEOF`. -/
  | ErrUnexpectedEOF
  /-- `context.Canceled`. -/
  | Canceled
  /-- `context.DeadlineExceeded`. -/
  | DeadlineExceeded
  /-- `*json.SyntaxError`. -/
  | SyntaxError (e : SyntaxError)
  /-- `*http.MaxBytesError`. -/
  | MaxBytesError (limit : Nat)
  /-- The error of `encoding/json` for a key without a field,
  `fmt.Errorf("json: unknown field %q", key)`; `key` is the key literal as it
  stands in the body. -/
  | UnknownField (key : List UInt8)
  /-- `*json.UnmarshalTypeError`. -/
  | UnmarshalTypeError (value : String) (type : String)
  /-- `validator.ValidationErrors`. -/
  | ValidationErrors (ve : List FieldError)
  /-- `*validator.InvalidValidationError`. -/
  | InvalidValidationError
  /-- Any other library error, identified by its text. -/
  | Other (text : String)
  /-- `fmt.Errorf("%w: %v", w, v)`: unwraps to `w`; `v` only contributes text. -/
  | Errorf_w_v (w v : GoError)
  /-- `fmt.Errorf("%w: " ++ text, w)`: unwraps to `w`. -/
  | Errorf_w (w : GoError) (text : String)
  deriving DecidableEq, Repr

/-- What `ctx.Err()` returns once the context is done. -/
inductive CtxErr where
  | Canceled
  | DeadlineExceeded
  deriving DecidableEq, Repr

/-- The `error` value of a `CtxErr`. -/
def CtxErr.toError : CtxErr → GoError
  | .Canceled => .Canceled
  | .DeadlineExceeded => .DeadlineExceeded

/-- `errors.Unwrap`. -/
def GoError.Unwrap : GoError → Option GoError
  | .Errorf_w_v w _ => some w
  | .Errorf_w w _ => some w
  | _ => none

/-- `errors.Is(err, target)` for a sentinel `target`: walk the `Unwrap` chain
comparing with `==`. -/
def errorsIs : GoError → GoError → Bool
  | .Errorf_w_v w v, target => (GoError.Errorf_w_v w v == target) || errorsIs w target
  | .Errorf_w w t, target => (GoError.Errorf_w w t == target) || errorsIs w target
  | err, target => err == target

/-- `errors.As(err, &ve)` with `ve validator.ValidationErrors`: the first
error of the chain that is a `ValidationErrors`. -/
def errorsAsValidationErrors : GoError → Option (List FieldError)
  | .ValidationErrors ve => some ve
  | .Errorf_w_v w _ => errorsAsValidationErrors w
  | .Errorf_w w _ => errorsAsValidationErrors w
  | _ => none

/-- `errors.As(err, &mbe)` with `mbe *http.MaxBytesError`: is there a
size-limit error in the chain. -/
def errorsAsMaxBytesError : GoError → Bool
  | .MaxBytesError _ => true
  | .Errorf_w_v w _ => errorsAsMaxBytesError w
  | .Errorf_w w _ => errorsAsMaxBytesError w
  | _ => false

/-! ## The scanner of `encoding/json` -/

/-- A body byte. -/
abbrev Byte := UInt8

/-- The byte of an ASCII character. -/
def byte (c : Char) : Byte := UInt8.ofNat c.toNat

/-- `isSpace` of `encoding/json`. -/
def isSpace (c : Byte) : Bool :=
  c ≤ byte ' ' && (c == byte ' ' || c == byte '\t' || c == byte '\r' || c == byte '\n')

/-- Is `c` between the ASCII characters `lo` and `hi`. -/
def between (lo hi : Char) (c : Byte) : Bool := byte lo ≤ c && c ≤ byte hi

/-- Entries of the scanner's parse stack. -/
inductive ParseState where
  | parseObjectKey
  | parseObjectValue
  | parseArrayValue
  deriving DecidableEq, Repr

/-- Opcodes returned by the scanner's step functions. -/
inductive ScanOp where
  | scanContinue
  | scanBeginLiteral
  | scanBeginObject
  | scanObjectKey
  | scanObjectValue
  | scanEndObject
  | scanBeginArray
  | scanArrayValue
  | scanEndArray
  | scanSkipSpace
  | scanEnd
  | scanError
  deriving DecidableEq, Repr

/-- The step function the scanner is in (`scanner.step`). -/
inductive StepFn where
  | stateBeginValueOrEmpty
  | stateBeginValue
  | stateBeginStringOrEmpty
  | stateBeginString
  | stateEndValue
  | stateEndTop
  | stateInString
  | stateInStringEsc
  | stateInStringEscU
  | stateInStringEscU1
  | stateInStringEscU12
  | stateInStringEscU123
  | stateNeg
  | state1
  | state0
  | stateDot
  | stateDot0
  | stateE
  | stateESign
  | stateE0
  | stateT
  | stateTr
  | stateTru
  | stateF
  | stateFa
  | stateFal
  | stateFals
  | stateN
  | stateNu
  | stateNul
  | stateError
  deriving DecidableEq, Repr

/-- The `scanner` of `encoding/json`. The parse stack has its top at the head. -/
structure Scanner where
  step : StepFn
  endTop : Bool
  parseState : List ParseState
  err : Option SyntaxError
  bytes : Nat
  deriving DecidableEq, Repr

/-- `maxNestingDepth` of `encoding/json`. -/
def maxNestingDepth : Nat := 10000

namespace Scanner

/-- `scanner.reset`. -/
def reset (s : Scanner) : Scanner :=
  { s with step := .stateBeginValue, parseState := [], err := none, endTop := false }

/-- `scanner.error`. -/
def error (s : Scanner) (c : Byte) (context : String) : Scanner × ScanOp :=
  ({ s with step := .stateError, err := some ⟨c, context, s.bytes⟩ }, .scanError)

/-- `scanner.pushParseState`. -/
def pushParseState (s : Scanner) (c : Byte) (newParseState : ParseState)
    (successState : ScanOp) : Scanner × ScanOp :=
  let s := { s with parseState := newParseState :: s.parseState }
  if s.parseState.length ≤ maxNestingDepth then (s, successState)
  else s.error c "exceeded max depth"

/-- `scanner.popParseState`. -/
def popParseState (s : Scanner) : Scanner :=
  let s := { s with parseState := s.parseState.tail }
  if s.parseState.length = 0 then { s with step := .stateEndTop, endTop := true }
  else { s with step := .stateEndValue }

/-- `stateEndTop`. -/
def stateEndTop (s : Scanner) (c : Byte) : Scanner × ScanOp :=
  if !isSpace c then ((s.error c "after top-level value").1, .scanEnd)
  else (s, .scanEnd)

/-- `stateEndValue`. -/
def stateEndValue (s : Scanner) (c : Byte) : Scanner × ScanOp :=
  match s.parseState with
  | [] => stateEndTop { s with step := .stateEndTop, endTop := true } c
  | ps :: rest =>
    if isSpace c then ({ s with step := .stateEndValue }, .scanSkipSpace)
    else
      match ps with
      | .parseObjectKey =>
        if c == byte ':' then
          ({ s with parseState := .parseObjectValue :: rest, step := .stateBeginValue },
            .scanObjectKey)
        else s.error c "after object key"
      | .parseObjectValue =>
        if c == byte ',' then
          ({ s with parseState := .parseObjectKey :: rest, step := .stateBeginString },
            .scanObjectValue)
        else if c == byte '}' then (s.popParseState, .scanEndObject)
        else s.error c "after object key:value pair"
      | .parseArrayValue =>
        if c == byte ',' then ({ s with step := .stateBeginValue }, .scanArrayValue)
        else if c == byte ']' then (s.popParseState, .scanEndArray)
        else s.error c "after array element"

/-- `stateBeginValue`. -/
def stateBeginValue (s : Scanner) (c : Byte) : Scanner × ScanOp :=
  if isSpace c then (s, .scanSkipSpace)
  else if c == byte '{' then
    pushParseState { s with step := .stateBeginStringOrEmpty } c .parseObjectKey .scanBeginObject
  else if c == byte '[' then
    pushParseState { s with step := .stateBeginValueOrEmpty } c .parseArrayValue .scanBeginArray
  else if c == byte '"' then ({ s with step := .stateInString }, .scanBeginLiteral)
  else if c == byte '-' then ({ s with step := .stateNeg }, .scanBeginLiteral)
  else if c == byte '0' then ({ s with step := .state0 }, .scanBeginLiteral)
  else if c == byte 't' then ({ s with step := .stateT }, .scanBeginLiteral)
  else if c == byte 'f' then ({ s with step := .stateF }, .scanBeginLiteral)
  else if c == byte 'n' then ({ s with step := .stateN }, .scanBeginLiteral)
  else if between '1' '9' c then ({ s with step := .state1 }, .scanBeginLiteral)
  else s.error c "looking for beginning of value"

/-- `stateBeginValueOrEmpty`. -/
def stateBeginValueOrEmpty (s : Scanner) (c : Byte) : Scanner × ScanOp :=
  if isSpace c then (s, .scanSkipSpace)
  else if c == byte ']' then stateEndValue s c
  else stateBeginValue s c

/-- `stateBeginString`. -/
def stateBeginString (s : Scanner) (c : Byte) : Scanner × ScanOp :=
  if isSpace c then (s, .scanSkipSpace)
  else if c == byte '"' then ({ s with step := .stateInString }, .scanBeginLiteral)
  else s.error c "looking for beginning of object key string"

/-- `stateBeginStringOrEmpty`. -/
def stateBeginStringOrEmpty (s : Scanner) (c : Byte) : Scanner × ScanOp :=
  if isSpace c then (s, .scanSkipSpace)
  else if c == byte '}' then
    stateEndValue { s with parseState := .parseObjectValue :: s.parseState.tail } c
  else stateBeginString s c

/-- `stateInString`. -/
def stateInString (s : Scanner) (c : Byte) : Scanner × ScanOp :=
  if c == byte '"' then ({ s with step := .stateEndValue }, .scanContinue)
  else if c == byte '\\' then ({ s with step := .stateInStringEsc }, .scanContinue)
  else if c < 0x20 then s.error c "in string literal"
  else (s, .scanContinue)

/-- `stateInStringEsc`. -/
def stateInStringEsc (s : Scanner) (c : Byte) : Scanner × ScanOp :=
  if c == byte 'b' || c == byte 'f' || c == byte 'n' || c == byte 'r' || c == byte 't'
      || c == byte '\\' || c == byte '/' || c == byte '"' then
    ({ s with step := .stateInString }, .scanContinue)
  else if c == byte 'u' then ({ s with step := .stateInStringEscU }, .scanContinue)
  else s.error c "in string escape code"

/-- The hexadecimal-digit test shared by the four `\u` states. -/
def isHex (c : Byte) : Bool := between '0' '9' c || between 'a' 'f' c || between 'A' 'F' c

/-- `stateInStringEscU`, `stateInStringEscU1`, `stateInStringEscU12` and
`stateInStringEscU123`: a hexadecimal digit moves to `next`. -/
def stateInStringEscUn (next : StepFn) (s : Scanner) (c : Byte) : Scanner × ScanOp :=
  if isHex c then ({ s with step := next }, .scanContinue)
  else s.error c "in \\u hexadecimal character escape"

/-- `stateNeg`. -/
def stateNeg (s : Scanner) (c : Byte) : Scanner × ScanOp :=
  if c == byte '0' then ({ s with step := .state0 }, .scanContinue)
  else if between '1' '9' c then ({ s with step := .state1 }, .scanContinue)
  else s.error c "in numeric literal"

/-- `state0`. -/
def state0 (s : Scanner) (c : Byte) : Scanner × ScanOp :=
  if c == byte '.' then ({ s with step := .stateDot }, .scanContinue)
  else if c == byte 'e' || c == byte 'E' then ({ s with step := .stateE }, .scanContinue)
  else stateEndValue s c

/-- `state1`. -/
def state1 (s : Scanner) (c : Byte) : Scanner × ScanOp :=
  if between '0' '9' c then ({ s with step := .state1 }, .scanContinue)
  else state0 s c

/-- `stateDot`. -/
def stateDot (s : Scanner) (c : Byte) : Scanner × ScanOp :=
  if between '0' '9' c then ({ s with step := .stateDot0 }, .scanContinue)
  else s.error c "after decimal point in numeric literal"

/-- `stateDot0`. -/
def stateDot0 (s : Scanner) (c : Byte) : Scanner × ScanOp :=
  if between '0' '9' c then (s, .scanContinue)
  else if c == byte 'e' || c == byte 'E' then ({ s with step := .stateE }, .scanContinue)
  else stateEndValue s c

/-- `stateESign`. -/
def stateESign (s : Scanner) (c : Byte) : Scanner × ScanOp :=
  if between '0' '9' c then ({ s with step := .stateE0 }, .scanContinue)
  else s.error c "in exponent of numeric literal"

/-- `stateE`. -/
def stateE (s : Scanner) (c : Byte) : Scanner × ScanOp :=
  if c == byte '+' || c == byte '-' then ({ s with step := .stateESign }, .scanContinue)
  else stateESign s c

/-- `stateE0`. -/
def stateE0 (s : Scanner) (c : Byte) : Scanner × ScanOp :=
  if between '0' '9' c then (s, .scanContinue)
  else stateEndValue s c

/-- The states inside the literals `true`, `false` and `null`: the byte
`expect` moves to `next`. -/
def stateLiteral (expect : Char) (next : StepFn) (context : String) (s : Scanner) (c : Byte) :
    Scanner × ScanOp :=
  if c == byte expect then ({ s with step := next }, .scanContinue)
  else s.error c context

/-- One transition: `s.step(s, c)`. -/
def run (s : Scanner) (c : Byte) : Scanner × ScanOp :=
  match s.step with
  | .stateBeginValueOrEmpty => stateBeginValueOrEmpty s c
  | .stateBeginValue => stateBeginValue s c
  | .stateBeginStringOrEmpty => stateBeginStringOrEmpty s c
  | .stateBeginString => stateBeginString s c
  | .stateEndValue => stateEndValue s c
  | .stateEndTop => stateEndTop s c
  | .stateInString => stateInString s c
  | .stateInStringEsc => stateInStringEsc s c
  | .stateInStringEscU => stateInStringEscUn .stateInStringEscU1 s c
  | .stateInStringEscU1 => stateInStringEscUn .stateInStringEscU12 s c
  | .stateInStringEscU12 => stateInStringEscUn .stateInStringEscU123 s c
  | .stateInStringEscU123 => stateInStringEscUn .stateInString s c
  | .stateNeg => stateNeg s c
  | .state1 => state1 s c
  | .state0 => state0 s c
  | .stateDot => stateDot s c
  | .stateDot0 => stateDot0 s c
  | .stateE => stateE s c
  | .stateESign => stateESign s c
  | .stateE0 => stateE0 s c
  | .stateT => stateLiteral 'r' .stateTr "in literal true (expecting 'r')" s c
  | .stateTr => stateLiteral 'u' .stateTru "in literal true (expecting 'u')" s c
  | .stateTru => stateLiteral 'e' .stateEndValue "in literal true (expecting 'e')" s c
  | .stateF => stateLiteral 'a' .stateFa "in literal false (expecting 'a')" s c
  | .stateFa => stateLiteral 'l' .stateFal "in literal false (expecting 'l')" s c
  | .stateFal => stateLiteral 's' .stateFals "in literal false (expecting 's')" s c
  | .stateFals => stateLiteral 'e' .stateEndValue "in literal false (expecting 'e')" s c
  | .stateN => stateLiteral 'u' .stateNu "in literal null (expecting 'u')" s c
  | .stateNu => stateLiteral 'l' .stateNul "in literal null (expecting 'l')" s c
  | .stateNul => stateLiteral 'l' .stateEndValue "in literal null (expecting 'l')" s c
  | .stateError => (s, .scanError)

end Scanner

/-! ## Readers, `http.MaxBytesReader`, `json.Decoder` -/

/-- What an `io.Reader` delivers: the bytes `data`, then the error `err` that ends
the stream (`io.EOF` after a complete body). -/
structure Reader where
  data : List Byte
  err : GoError
  deriving DecidableEq, Repr

/-- `maxBodySize` of `bind.go`. -/
def maxBodySize : Nat := 1 <<< 23

/-- `http.MaxBytesReader(nil, r, n)`: the first `n` bytes of `r` pass; a longer
stream is cut after `n` bytes and ends with `*http.MaxBytesError`. -/
def MaxBytesReader (r : Reader) (n : Nat) : Reader :=
  if r.data.length ≤ n then r else { data := r.data.take n, err := .MaxBytesError n }

/-- `nonSpace` of `encoding/json`. -/
def nonSpace (b : List Byte) : Bool := b.any fun c => !isSpace c

/-- The scan loop of `Decoder.readValue` over the unread bytes `buf`, `scanp`
bytes into the value; `all` is the whole buffer and `err` the error that ends
the stream. Returns the length of the first JSON value, or the error. -/
def readValueLoop (err : GoError) (all : List Byte) :
    Scanner → List Byte → Nat → Scanner × Except GoError Nat
  | s, [], scanp =>
    -- every byte is scanned: now the error of the last read counts
    if err = .EOF then
      let (s1, op) := s.run (byte ' ')
      if op = .scanEnd then (s1, .ok scanp)
      else (s1, .error (if nonSpace all then .ErrUnexpectedEOF else .EOF))
    else (s, .error err)
  | s, c :: buf, scanp =>
    let (s1, op) := Scanner.run { s with bytes := s.bytes + 1 } c
    match op with
    | .scanEnd => ({ s1 with bytes := s1.bytes - 1 }, .ok scanp)
    | .scanEndObject | .scanEndArray =>
      let (s2, op2) := Scanner.stateEndValue s1 (byte ' ')
      if op2 = .scanEnd then (s2, .ok (scanp + 1))
      else readValueLoop err all s2 buf (scanp + 1)
    | .scanError =>
      -- `scan.err` is set whenever a step returns `scanError`
      match s1.err with
      | some e => (s1, .error (.SyntaxError e))
      | none => (s1, .error (.Other ""))
    | _ => readValueLoop err all s1 buf (scanp + 1)

/-- The `json.Decoder` state: the unread input and the decoding options. -/
structure Decoder where
  r : Reader
  scan : Scanner
  disallowUnknownFields : Bool
  deriving DecidableEq, Repr

/-- `json.NewDecoder`. -/
def NewDecoder (r : Reader) : Decoder :=
  { r := r,
    scan := { step := .stateBeginValue, endTop := false, parseState := [], err := none,
              bytes := 0 },
    disallowUnknownFields := false }

namespace Decoder

/-- `Decoder.DisallowUnknownFields`. -/
def DisallowUnknownFields (dec : Decoder) : Decoder :=
  { dec with disallowUnknownFields := true }

/-- `Decoder.readValue`. -/
def readValue (dec : Decoder) : Decoder × Except GoError Nat :=
  let (s, res) := readValueLoop dec.r.err dec.r.data dec.scan.reset dec.r.data 0
  ({ dec with scan := s }, res)

/-- `Decoder.Decode(dst)`: read the first JSON value of the stream and
unmarshal it into `dst` with `unmarshal`, the reflection-driven
`d.unmarshal` of `encoding/json` for the destination type. -/
def Decode {T : Type} (unmarshal : Bool → List Byte → T → T × Option GoError)
    (dec : Decoder) (dst : T) : Decoder × T × Option GoError :=
  match dec.readValue with
  | (dec1, .error err) => (dec1, dst, some err)
  | (dec1, .ok n) =>
    let (dst1, err) := unmarshal dec1.disallowUnknownFields (dec1.r.data.take n) dst
    ({ dec1 with r := { dec1.r with data := dec1.r.data.drop n } }, dst1, err)

/-- `Decoder.peek`: the next byte that is not white space, or the error that
ends the stream. -/
def peek (dec : Decoder) : Except GoError Byte :=
  match dec.r.data.dropWhile isSpace with
  | c :: _ => .ok c
  | [] => .error dec.r.err

/-- `Decoder.More`. -/
def More (dec : Decoder) : Bool :=
  match dec.peek with
  | .ok c => c != byte ']' && c != byte '}'
  | .error _ => false

end Decoder

/-! ## Maps, requests, package state -/

/-- A Go `map[string]β`: an association list with distinct keys. -/
abbrev GoMap (β : Type) := List (String × β)

namespace GoMap

/-- Reading `m[k]` with the `ok` flag. -/
def get? {β : Type} : GoMap β → String → Option β
  | [], _ => none
  | (k1, v1) :: m, k => if k1 = k then some v1 else get? m k

/-- The assignment `m[k] = v`. -/
def set {β : Type} : GoMap β → String → β → GoMap β
  | [], k, v => [(k, v)]
  | (k1, v1) :: m, k, v => if k1 = k then (k, v) :: m else (k1, v1) :: set m k v

/-- The keys of `m`. -/
def keys {β : Type} (m : GoMap β) : List String := m.map Prod.fst

end GoMap

/-- `http.Header.Get` for a key in canonical form. -/
def Header.Get (h : GoMap (List String)) (key : String) : String :=
  match h.get? key with
  | some (v :: _) => v
  | _ => ""

/-- The parts of `*http.Request` the package reads. -/
structure Request where
  ContentLength : Int
  Body : Reader
  Header : GoMap (List String)
  /-- `r.Context().Err()` at the time `BindValidate` polls `r.Context().Done()`:
  `none` while the context is not done. -/
  ctxErr : Option CtxErr
  deriving DecidableEq, Repr

/-- A Go call that returns or panics. -/
inductive Outcome (α : Type) where
  | ret (a : α)
  | panic (msg : String)
  deriving DecidableEq, Repr

/-- The value a call returns, and `d` for a call that panics. -/
def Outcome.getD {α : Type} (o : Outcome α) (d : α) : α :=
  match o with
  | .ret a => a
  | .panic _ => d

/-- The operations of `go-playground/validator`, `universal-translator` and
`x/text/language` the package calls. The package never looks inside a
validator or a translator, so their states are types of the library. -/
structure VLib where
  /-- State of a `*validator.Validate`. -/
  Validate : Type
  /-- State of a (non-nil) `ut.Translator`. -/
  Translator : Type
  /-- A non-nil `validator.Func`. -/
  Func : Type
  /-- `v.RegisterValidation(tag, fn)`; `fn = none` is a nil func. -/
  RegisterValidation : Validate → String → Option Func → Outcome (Validate × Option GoError)
  /-- `v.RegisterTranslation(tag, trans, registerFn, translationFn)`; returns the
  states of `v` and of `trans` after the call. -/
  RegisterTranslation : Validate → String → Translator →
    (Translator → Translator × Option GoError) →
    (Translator → FieldError → Outcome String) →
    Validate × Translator × Option GoError
  /-- `ut.Add(key, text, override)`. -/
  Add : Translator → String → String → Bool → Translator × Option GoError
  /-- `ut.T(key)`, called with no `params`. -/
  T : Translator → String → Outcome (String × Option GoError)
  /-- `fe.Translate(tr)` for a field error of validator `v`; `none` is a nil
  translator. It runs the translation func registered for the tag of `fe`, and
  panics when that func does. -/
  Translate : Validate → FieldError → Option Translator → Outcome String
  /-- `language.ParseAcceptLanguage(s)`, each tag rendered with `Tag.String()`. -/
  ParseAcceptLanguage : String → Except GoError (List String)

/-- The reflection-driven library code for a destination type `T`. -/
structure Codec (L : VLib) (T : Type) where
  /-- `d.unmarshal(dst)` of `encoding/json` on the bytes of one JSON value; the
  flag is `d.disallowUnknownFields`. Returns `dst` after the call. -/
  unmarshal : Bool → List Byte → T → T × Option GoError
  /-- `v.Struct(dst)`. -/
  Struct : L.Validate → T → Option GoError

/-- The package variables `V` and `translators` of `init.go`. -/
structure Globals (L : VLib) where
  V : Option L.Validate
  translators : GoMap L.Translator

/-! ## `init.go` -/

/-- `strings.IndexByte` for an ASCII byte `c`, counted in characters: the
characters before index `i` are the bytes of `s[:i]`. -/
def IndexByte (s : String) (c : Char) : Int :=
  if c ∈ s.data then (s.data.indexOf c : Nat) else -1

/-- `baseLocale` of `init.go`. -/
def baseLocale (tag : String) : String :=
  let i := IndexByte tag '-'
  if i > 0 then String.mk (tag.data.take i.toNat) else tag

/-- `TranslatorFor` of `init.go`; `none` is the nil translator that indexing
`translators` with a missing key yields. -/
def TranslatorFor (L : VLib) (g : Globals L) (r : Request) : Option L.Translator :=
  let lang := baseLocale (Header.Get r.Header "X-Request-Lang")
  match (if lang ≠ "" then g.translators.get? lang else none) with
  | some tr => some tr
  | none =>
    let al := Header.Get r.Header "Accept-Language"
    let found : Option L.Translator :=
      if al ≠ "" then
        match L.ParseAcceptLanguage al with
        | .ok (tag :: _) => g.translators.get? (baseLocale tag)
        | _ => none
      else none
    match found with
    | some tr => some tr
    | none => g.translators.get? "en"

/-- The translation func `RegisterCustomValidator` registers for `tag`
(lines 151-154 of `init.go`): `t, _ := ut.T(tag); return t`. -/
def RegisterCustomValidator.translationFn (L : VLib) (tag : String) (ut : L.Translator)
    (_ : FieldError) : Outcome String :=
  match L.T ut tag with
  | .ret res => .ret res.1
  | .panic msg => .panic msg

/-- `RegisterCustomValidator` of `init.go`. Returns the package state after the
call and the error. -/
def RegisterCustomValidator (L : VLib) (g : Globals L) (tag : String) (fn : Option L.Func)
    (messages : GoMap String) : Outcome (Globals L × Option GoError) :=
  match g.V with
  | none => .ret (g, some .ErrValidatorUnset)
  | some v =>
    match L.RegisterValidation v tag fn with
    | .panic msg => .panic msg
    | .ret (v1, some err) => .ret ({ g with V := some v1 }, some err)
    | .ret (v1, none) =>
      let loop : L.Validate × GoMap L.Translator → String × String →
          L.Validate × GoMap L.Translator := fun st entry =>
        match st.2.get? entry.1 with
        | none => st
        | some tr =>
          let res := L.RegisterTranslation st.1 tag tr
            (fun ut => L.Add ut tag entry.2 true) (RegisterCustomValidator.translationFn L tag)
          (res.1, st.2.set entry.1 res.2.1)
      let st := messages.foldl loop (v1, g.translators)
      .ret ({ V := some st.1, translators := st.2 }, none)

/-! ## `bind.go` -/

/-- The library calls `BindValidate` makes, for its trace. -/
inductive Call where
  | Decode
  | More
  | BodyClose
  | Struct
  | TranslatorFor
  | Translate (fe : FieldError)
  deriving DecidableEq, Repr

/-- What a call of `BindValidate` leaves: the destination after the call, the
two results (`none` is `nil`), the library calls made, in order, and the panic
that ends the call (`none` when it returns). A call that panics returns
nothing: `details` and `err` are then `none`. -/
structure BindResult (T : Type) where
  dst : T
  details : Option (GoMap String)
  err : Option GoError
  calls : List Call
  panic : Option String
  deriving DecidableEq, Repr

/-- The decoder of `BindValidate` (lines 43-46) after `decoder.Decode(dst)`
(line 49): the decoder, `dst` and the error of `Decode`. -/
def decodeBody {T : Type} {L : VLib} (C : Codec L T) (r : Request) (dst : T) :
    Decoder × T × Option GoError :=
  ((NewDecoder (MaxBytesReader r.Body maxBodySize)).DisallowUnknownFields).Decode C.unmarshal dst

/-- The loop of lines 76-78 of `BindValidate` over the field errors still to
come, from the map `details` filled so far: the map as the loop leaves it, the
calls it makes, and the panic that ends it when a `fe.Translate(tr)` panics. -/
def BindValidate.translate (L : VLib) (v : L.Validate) (tr : Option L.Translator) :
    List FieldError → GoMap String → GoMap String × List Call × Option String
  | [], details => (details, [], none)
  | fe :: ve, details =>
    match L.Translate v fe tr with
    | .panic msg => (details, [.Translate fe], some msg)
    | .ret text =>
      let rest := BindValidate.translate L v tr ve (details.set fe.Field text)
      (rest.1, .Translate fe :: rest.2.1, rest.2.2)

/-- Lines 63-83 of `BindValidate`: the validator check, validation and the
translation of field errors. `calls` are the calls made so far, `deferred`
the deferred ones that run on return or panic. -/
def BindValidate.validate {T : Type} (L : VLib) (C : Codec L T) (g : Globals L) (r : Request)
    (dst : T) (calls deferred : List Call) : BindResult T :=
  match g.V with
  | none => ⟨dst, none, some .errValidatorUnset, calls ++ deferred, none⟩
  | some v =>
    match C.Struct v dst with
    | some err =>
      match errorsAsValidationErrors err with
      | none => ⟨dst, none, some err, calls ++ [.Struct] ++ deferred, none⟩
      | some ve =>
        let tr := TranslatorFor L g r
        let loop := BindValidate.translate L v tr ve []
        match loop.2.2 with
        | some msg =>
          ⟨dst, none, none, calls ++ [.Struct, .TranslatorFor] ++ loop.2.1 ++ deferred, some msg⟩
        | none =>
          ⟨dst, some loop.1, some err,
            calls ++ [.Struct, .TranslatorFor] ++ loop.2.1 ++ deferred, none⟩
    | none => ⟨dst, none, none, calls ++ [.Struct] ++ deferred, none⟩

/-- `BindValidate` of `bind.go`. -/
def BindValidate {T : Type} (L : VLib) (C : Codec L T) (g : Globals L) (r : Request) (dst : T) :
    BindResult T :=
  if r.ContentLength ≠ 0 then
    -- `defer r.Body.Close()`
    let deferred : List Call := [.BodyClose]
    match decodeBody C r dst with
    | (_, dst1, some err) =>
      match r.ctxErr with
      | some cerr => ⟨dst1, none, some cerr.toError, [.Decode] ++ deferred, none⟩
      | none => ⟨dst1, none, some (.Errorf_w_v .errDecode err), [.Decode] ++ deferred, none⟩
    | (decoder, dst1, none) =>
      if decoder.More then
        ⟨dst1, none, some (.Errorf_w .errDecode "extra data after JSON object"),
          [.Decode, .More] ++ deferred, none⟩
      else BindValidate.validate L C g r dst1 [.Decode, .More] deferred
  else BindValidate.validate L C g r dst [] []

/-- The destination as lines 39-61 of `BindValidate` leave it. -/
def afterDecode {T : Type} {L : VLib} (C : Codec L T) (r : Request) (dst : T) : T :=
  if r.ContentLength ≠ 0 then (decodeBody C r dst).2.1 else dst

/-- Lines 39-61 of `BindValidate` fall through to the validator check: decoding
is skipped, or `Decode` succeeds and `More` reports nothing further. -/
def decodePasses {T : Type} {L : VLib} (C : Codec L T) (r : Request) (dst : T) : Prop :=
  r.ContentLength = 0 ∨ ((decodeBody C r dst).2.2 = none ∧ (decodeBody C r dst).1.More = false)

instance {T : Type} {L : VLib} (C : Codec L T) (r : Request) (dst : T) :
    Decidable (decodePasses C r dst) := by
  unfold decodePasses
  infer_instance

/-! ## A concrete destination type and library, for evaluating the pipeline -/

/-- The key literal at the head of an object's members, quotes included: up to
the first quote that no backslash escapes. The flag says whether the opening
quote is passed. -/
def keyLiteral : Bool → List Byte → List Byte
  | _, [] => []
  | false, c :: b => if c = byte '"' then c :: keyLiteral true b else keyLiteral false b
  | true, c :: b =>
    if c = byte '"' then [c]
    else if c = byte '\\' then
      match b with
      | [] => [c]
      | e :: b1 => c :: e :: keyLiteral true b1
    else c :: keyLiteral true b

/-- `d.unmarshal` of `encoding/json` for a struct type without JSON fields
(`struct{}`, or every field tagged `json:"-"`), on the bytes of one JSON
value: `null` and `{}` are stored without error, every key of an object is
unknown, every other value has the wrong type. `type` is the name of the
type in the error. -/
def unmarshalNoFields {T : Type} (type : String) (disallowUnknownFields : Bool)
    (raw : List Byte) (dst : T) : T × Option GoError :=
  match raw.dropWhile isSpace with
  | [] => (dst, some .ErrUnexpectedEOF)
  | c :: b =>
    if c = byte '{' then
      match b.dropWhile isSpace with
      | [] => (dst, none)
      | k :: _ =>
        if k = byte '}' then (dst, none)
        else if disallowUnknownFields then (dst, some (.UnknownField (keyLiteral false b)))
        else (dst, none)
    else if c = byte '[' then (dst, some (.UnmarshalTypeError "array" type))
    else if c = byte 'n' then (dst, none)
    else if c = byte '"' then (dst, some (.UnmarshalTypeError "string" type))
    else if c = byte 't' || c = byte 'f' then (dst, some (.UnmarshalTypeError "bool" type))
    else (dst, some (.UnmarshalTypeError "number" type))

/-- `fe.Error()` of the validator. -/
def FieldError.Error (fe : FieldError) : String :=
  "Key: '" ++ fe.Namespace ++ "' Error:Field validation for '" ++ fe.Field ++
    "' failed on the '" ++ fe.Tag ++ "' tag"

/-- A library instance for evaluating `BindValidate` on concrete requests: a
validator whose state is not recorded, so that no translation is ever found
and `fe.Translate` renders `fe.Error()`; a translator is known by its locale;
no tag is taken from `Accept-Language`. `RegisterValidation` makes the checks
of the library for an empty tag and a nil func. -/
def bareLib : VLib where
  Validate := Unit
  Translator := String
  Func := Unit
  RegisterValidation := fun v tag fn =>
    if tag = "" then .ret (v, some (.Other "function Key cannot be empty"))
    else if fn.isNone then .ret (v, some (.Other "function cannot be empty"))
    else .ret (v, none)
  RegisterTranslation := fun v _ tr _ _ => (v, tr, none)
  Add := fun tr _ _ _ => (tr, none)
  T := fun _ key => .ret (key, none)
  Translate := fun _ fe _ => .ret fe.Error
  ParseAcceptLanguage := fun _ => .ok []

/-- The destination type `struct{}`: no field, no constraint. -/
def emptyStruct : Codec bareLib Unit where
  unmarshal := unmarshalNoFields "struct {}"
  Struct := fun _ _ => none

/-- The destination type
`Order struct { Billing Addr; Shipping Addr }`, both fields tagged `json:"-"`,
with `Addr struct { Street string }` tagged `validate:"required"`. The
value is the pair of the two streets, which the caller fills in; the body
carries no field, and validation reports each empty street under the field
name `Street`. -/
def order : Codec bareLib (String × String) where
  unmarshal := unmarshalNoFields "main.Order"
  Struct := fun _ dst =>
    let ve :=
      (if dst.1 = "" then [FieldError.mk "Order.Billing.Street" "Street" "required" ""]
        else []) ++
      (if dst.2 = "" then [FieldError.mk "Order.Shipping.Street" "Street" "required" ""]
        else [])
    if ve = [] then none else some (.ValidationErrors ve)

/-- The bytes of an ASCII text. -/
def ascii (s : String) : List Byte := s.data.map byte

/-- The body `{`: an object that is not finished. -/
def unfinishedObject : List Byte := ascii "\x7b"

/-- The body `{}`. -/
def emptyObject : List Byte := ascii "\x7b\x7d"

/-- The body `{}}`: an object and a stray closing brace. -/
def strayBrace : List Byte := ascii "\x7b\x7d\x7d"

/-- The body `{}]`: an object and a stray closing bracket. -/
def strayBracket : List Byte := ascii "\x7b\x7d]"

/-- The body `{}{}`: two objects. -/
def twoObjects : List Byte := ascii "\x7b\x7d\x7b\x7d"

/-- The body `{"a":1}`: an object with the key `a`. -/
def unknownKey : List Byte := ascii "\x7b\"a\":1\x7d"

/-- A request with the given `ContentLength`, a complete body and no header. -/
def request (contentLength : Int) (body : List Byte) (ctxErr : Option CtxErr) : Request :=
  { ContentLength := contentLength, Body := ⟨body, .EOF⟩, Header := [], ctxErr := ctxErr }

/-- Package state with the validator set and an "en" translator. -/
def ready : Globals bareLib := { V := some (), translators := [("en", "en")] }

/-- Package state with `V` nil. -/
def unset : Globals bareLib := { V := none, translators := [("en", "en")] }

/-! ## The base subtag, as the spec words it -/

/-- The base subtag in the words of the spec: the portion of `tag` before its
first `-`, all of `tag` when it has none. -/
def baseSubtag (tag : String) : String := String.mk (tag.data.takeWhile fun c => c != '-')

/-! ## The `nohtml` rule of `init.go` -/

/-- A `reflect.Value`, as far as `Value.String` tells values apart: a string,
or a value of another type. -/
inductive Value where
  | string (s : String)
  | other (type : String)
  deriving DecidableEq, Repr

/-- `reflect.Value.String`: the string itself, and `<T Value>` for a value of
another type `T`. -/
def Value.String : Value → String
  | .string s => s
  | .other type => "<" ++ type ++ " Value>"

/-- The part of `validator.FieldLevel` the rule reads. -/
structure FieldLevel where
  /-- Result of `fl.Field()`. -/
  Field : Value
  deriving DecidableEq, Repr

/-- The replacement `html.EscapeString` makes for one character. -/
def escapeChar (c : Char) : List Char :=
  if c = '&' then "&amp;".data
  else if c = Char.ofNat 39 then "&#39;".data
  else if c = '<' then "&lt;".data
  else if c = '>' then "&gt;".data
  else if c = '"' then "&#34;".data
  else [c]

/-- `html.EscapeString`. -/
def EscapeString (s : String) : String := String.mk (s.data.flatMap escapeChar)

/-- The characters `html.EscapeString` replaces: `<`, `>`, `&`, the single and
the double quote. -/
def isHTMLSpecial (c : Char) : Bool :=
  c = '<' || c = '>' || c = '&' || c = Char.ofNat 39 || c = '"'

/-- The func registered under the tag `nohtml` (lines 49-52 of `init.go`). -/
def nohtml (fl : FieldLevel) : Bool :=
  let s := fl.Field.String
  EscapeString s == s

/-! ## `interfaces.go` and `response.go` -/

/-- `ErrorBlock` of `interfaces.go`; `δ` is the type of the details, `none` a
nil `Details`. -/
structure ErrorBlock (δ : Type) where
  Code : String
  Message : String
  Details : Option δ
  deriving DecidableEq, Repr

/-- `Envelope` of `interfaces.go`; `α` is the type of the payload, `none` a nil
`Data` or a nil `Error`. -/
structure Envelope (α δ : Type) where
  Success : Bool
  Data : Option α
  Error : Option (ErrorBlock δ)
  TraceID : String
  deriving DecidableEq, Repr

/-- The calls a response primitive makes on its `http.ResponseWriter`. -/
inductive WriterCall (α δ : Type) where
  /-- `w.Header().Set(key, value)`. -/
  | HeaderSet (key value : String)
  /-- `w.WriteHeader(status)`. -/
  | WriteHeader (status : Int)
  /-- `json.NewEncoder(w).Encode(body)`. -/
  | Encode (body : Envelope α δ)
  deriving DecidableEq, Repr

/-- `writeJSON` of `response.go`: its calls on `w`, in order. -/
def writeJSON {α δ : Type} (status : Int) (body : Envelope α δ) : List (WriterCall α δ) :=
  [.HeaderSet "Content-Type" "application/json", .WriteHeader status, .Encode body]

/-- `Error` of `response.go`: its calls on `w`. `GetReqID` is
`middleware.GetReqID` applied to the context of the request. -/
def Error {α δ : Type} (GetReqID : Request → String) (r : Request) (status : Int)
    (code message : String) (details : Option δ) : List (WriterCall α δ) :=
  let traceID := GetReqID r
  let resp : Envelope α δ :=
    { Success := false,
      Data := none,
      Error := some { Code := code, Message := message, Details := details },
      TraceID := traceID }
  writeJSON status resp

/-- `JSON` of `response.go`: its calls on `w`. -/
def JSON {α δ : Type} (GetReqID : Request → String) (r : Request) (status : Int)
    (data : Option α) : List (WriterCall α δ) :=
  let traceID := GetReqID r
  let resp : Envelope α δ :=
    { Success := true, Data := data, Error := none, TraceID := traceID }
  writeJSON status resp

/-- `d.unmarshal` of `encoding/json` for the destination type `bool`, on the
bytes of one JSON value: `true` and `false` are stored, `null` leaves the
destination, every other value has the wrong type. -/
def unmarshalBool (_disallowUnknownFields : Bool) (raw : List Byte) (dst : Bool) :
    Bool × Option GoError :=
  match raw.dropWhile isSpace with
  | [] => (dst, some .ErrUnexpectedEOF)
  | c :: _ =>
    if c = byte 't' then (true, none)
    else if c = byte 'f' then (false, none)
    else if c = byte 'n' then (dst, none)
    else if c = byte '"' then (dst, some (.UnmarshalTypeError "string" "bool"))
    else if c = byte '[' then (dst, some (.UnmarshalTypeError "array" "bool"))
    else if c = byte '{' then (dst, some (.UnmarshalTypeError "object" "bool"))
    else (dst, some (.UnmarshalTypeError "number" "bool"))

/-- The destination type `bool`: it is not a struct, and `V.Struct` answers
`*validator.InvalidValidationError`. -/
def boolean : Codec bareLib Bool where
  unmarshal := unmarshalBool
  Struct := fun _ _ => some .InvalidValidationError

/-! ## `init` of `init.go` -/

/-- The library calls of `init`. -/
structure InitLib (L : VLib) where
  /-- `validator.New()`. -/
  New : L.Validate
  /-- A Go func value as a `validator.Func`. -/
  toFunc : (FieldLevel → Bool) → L.Func
  /-- State of a `*ut.UniversalTranslator`. -/
  UniversalTranslator : Type
  /-- `ut.New(fallback, supported...)`, each locale given by its code. -/
  utNew : String → List String → UniversalTranslator
  /-- `uni.GetTranslator(code)`: the translator and whether `code` is supported. -/
  GetTranslator : UniversalTranslator → String → L.Translator × Bool
  /-- `RegisterDefaultTranslations(v, trans)` of the package
  `validator/v10/translations/<pkg>`; returns the states of `v` and of `trans`
  after the call. -/
  RegisterDefaultTranslations : String → L.Validate → L.Translator →
    L.Validate × L.Translator × Option GoError

/-- The calls `add(code, <pkg>_trans.RegisterDefaultTranslations)` of lines 81-91
of `init.go`, in order: the code and the translations package. -/
def init.adds : List (String × String) :=
  [("en", "en"), ("ru", "ru"), ("de", "de"), ("zh", "zh"), ("fr", "fr"), ("es", "es"),
   ("lv", "en"), ("it", "it"), ("pt", "pt"), ("ja", "ja"), ("ko", "ko")]

/-- The helper `add` of `init` (lines 75-79): the states of `V` and of
`translators` after `add(code, reg)`. -/
def init.add (L : VLib) (I : InitLib L) (uni : I.UniversalTranslator)
    (st : L.Validate × GoMap L.Translator) (entry : String × String) :
    L.Validate × GoMap L.Translator :=
  let tr := (I.GetTranslator uni entry.1).1
  let res := I.RegisterDefaultTranslations entry.2 st.1 tr
  (res.1, st.2.set entry.1 res.2.1)

/-- `init` of `init.go`, run on the package state `g`: the state it leaves, or
the panic of `RegisterValidation`. -/
def init (L : VLib) (I : InitLib L) (g : Globals L) : Outcome (Globals L) :=
  let V : Outcome L.Validate :=
    match g.V with
    | none =>
      match L.RegisterValidation I.New "nohtml" (some (I.toFunc nohtml)) with
      | .panic msg => .panic msg
      | .ret (v, _) => .ret v
    | some v => .ret v
  match V with
  | .panic msg => .panic msg
  | .ret v =>
    let uni := I.utNew "en" ["en", "ru", "de", "lv", "zh", "fr", "es", "it", "pt", "ja", "ko"]
    let st := init.adds.foldl (init.add L I uni) (v, [])
    .ret { V := some st.1, translators := st.2 }

/-- No key of the map is empty or begins with `-`. -/
def PlainKeys {β : Type} (m : GoMap β) : Prop :=
  ∀ k ∈ m.keys, k ≠ "" ∧ k.data.head? ≠ some '-'

instance {β : Type} (m : GoMap β) : Decidable (PlainKeys m) := by
  unfold PlainKeys
  infer_instance

/-- The answers of `language.ParseAcceptLanguage` on the header values of the
examples, each tag rendered with `Tag.String()` and the tags in the order of
their weights; header values outside the examples are answered with no tag. -/
def acceptLanguageExamples (s : String) : Except GoError (List String) :=
  if s = "fr" then .ok ["fr"]
  else if s = "es;q=0.9,ja;q=0.5" then .ok ["es", "ja"]
  else if s = "ja;q=0.5,es;q=0.9" then .ok ["es", "ja"]
  else if s = "nl,ru;q=0.8" then .ok ["nl", "ru"]
  else if s = "es;q=" then .error (.Other "language: invalid weight")
  else .ok []

/-- The library `bareLib` with the answers of `acceptLanguageExamples`. -/
def exampleLib : VLib := { bareLib with ParseAcceptLanguage := acceptLanguageExamples }

/-- The calls of `init` for `exampleLib`: a universal translator is its
fallback and its supported locales, a translator is known by its locale, and
registrations are not recorded. -/
def exampleInit : InitLib exampleLib where
  New := ()
  toFunc := fun _ => ()
  UniversalTranslator := String × List String
  utNew := fun fallback supported => (fallback, supported)
  GetTranslator := fun uni code => if code ∈ uni.2 then (code, true) else (uni.1, false)
  RegisterDefaultTranslations := fun _ v tr => (v, tr, none)

/-- The package state before `init`: `V` nil, no registry. -/
def zeroState (L : VLib) : Globals L := { V := none, translators := [] }

/-- The package state `init` leaves for `exampleLib`. -/
def initialised : Globals exampleLib :=
  { V := some (),
    translators := [("en", "en"), ("ru", "ru"), ("de", "de"), ("zh", "zh"), ("fr", "fr"),
      ("es", "es"), ("lv", "lv"), ("it", "it"), ("pt", "pt"), ("ja", "ja"), ("ko", "ko")] }

/-- A request without body and with the two language headers. -/
def langRequest (requestLang acceptLanguage : String) : Request :=
  { ContentLength := 0, Body := ⟨[], .EOF⟩,
    Header := [("X-Request-Lang", [requestLang]), ("Accept-Language", [acceptLanguage])],
    ctxErr := none }

/-! ## A library that records registrations

The validator and translator, as far as `RegisterCustomValidator` drives them:
`Validate.RegisterValidation`, `Validate.RegisterTranslation`,
`FieldError.Translate`, and `Add` and `T` of a translator. -/

/-- State of a `ut.Translator`: its locale and the texts added, by key. -/
structure UTranslator where
  locale : String
  translations : GoMap String
  deriving DecidableEq, Repr

/-- State of a `*validator.Validate`: the custom rules by tag, and the
translation funcs by translator (known by its locale) and tag. -/
structure Validator where
  validations : GoMap (FieldLevel → Bool)
  transTagFunc : GoMap (GoMap (UTranslator → FieldError → Outcome String))

/-- What `Add` and `T` of a translator make of a text. Releases of
universal-translator differ on texts with braces and the package pins none,
so the rules are a parameter of the library. -/
structure TextRules where
  /-- The error with which `Add` refuses the text; `none` when it takes it. -/
  refuses : String → Option GoError
  /-- Does a text that `Add` took carry parameters (`{0}`, ...), for which `T`
  reads its `params`. -/
  hasParams : String → Bool

/-- The parameter `{i}` of a translation text. -/
def paramText (i : Nat) : List Char := ['{'] ++ (toString i).data ++ ['}']

/-- The rules of universal-translator up to v0.18.1: `Add` wants as many `{` as
`}` and, for every `i` below that number, the parameter `{i}`; a text it took
carries parameters when it has a `{`. Release v0.18.2 takes further texts (a
lone `{` for one). Of the texts evaluated with these rules, one without braces
and one that starts with `{0}` are taken by either release, and `{0` without
its closing brace is refused by either. Errors are named by their Go type. -/
def textRules : TextRules where
  refuses := fun text =>
    if text.data.count '{' ≠ text.data.count '}' then some (.Other "ErrMissingBracket")
    else if !(List.range (text.data.count '{')).all fun i => paramText i <:+: text.data then
      some (.Other "ErrBadParamSyntax")
    else none
  hasParams := fun text => text.data.count '{' ≠ 0

/-- `Add(key, text, override)` of a translator. -/
def UTranslator.Add (rules : TextRules) (t : UTranslator) (key text : String)
    (override : Bool) : UTranslator × Option GoError :=
  if (t.translations.get? key).isSome && !override then
    (t, some (.Other "ErrConflictingTranslation"))
  else
    match rules.refuses text with
    | some err => (t, some err)
    | none => ({ t with translations := t.translations.set key text }, none)

/-- `T(key)` of a translator, called without `params`: the text added under
`key`. For a text with parameters the call indexes the empty `params` and
panics. -/
def UTranslator.T (rules : TextRules) (t : UTranslator) (key : String) :
    Outcome (String × Option GoError) :=
  match t.translations.get? key with
  | none => .ret ("", some (.Other "ErrUnknowTranslation"))
  | some text =>
    if rules.hasParams text then .panic "runtime error: index out of range [0] with length 0"
    else .ret (text, none)

/-- `v.RegisterValidation(tag, fn)`; `restricted` tells the tags the validator
keeps for itself, for which it panics. -/
def Validator.RegisterValidation (restricted : String → Bool) (v : Validator) (tag : String)
    (fn : Option (FieldLevel → Bool)) : Outcome (Validator × Option GoError) :=
  if tag = "" then .ret (v, some (.Other "function Key cannot be empty"))
  else
    match fn with
    | none => .ret (v, some (.Other "function cannot be empty"))
    | some f =>
      if restricted tag then .panic "restricted tag"
      else .ret ({ v with validations := v.validations.set tag f }, none)

/-- `v.RegisterTranslation(tag, trans, registerFn, translationFn)`. -/
def Validator.RegisterTranslation (v : Validator) (tag : String) (trans : UTranslator)
    (registerFn : UTranslator → UTranslator × Option GoError)
    (translationFn : UTranslator → FieldError → Outcome String) :
    Validator × UTranslator × Option GoError :=
  match registerFn trans with
  | (trans1, some err) => (v, trans1, some err)
  | (trans1, none) =>
    let m := (v.transTagFunc.get? trans1.locale).getD []
    ({ v with transTagFunc := v.transTagFunc.set trans1.locale (m.set tag translationFn) },
      trans1, none)

/-- `fe.Translate(ut)` for a field error of validator `v`: the translation func
registered for the translator and the tag of `fe` is run, and `fe.Error()` is
the answer when there is none. -/
def Validator.Translate (v : Validator) (fe : FieldError) (ut : Option UTranslator) :
    Outcome String :=
  match ut with
  | none => .ret fe.Error
  | some t =>
    match v.transTagFunc.get? t.locale with
    | none => .ret fe.Error
    | some m =>
      match m.get? fe.Tag with
      | none => .ret fe.Error
      | some fn => fn t fe

/-- The library that records registrations. -/
def recordingLib (rules : TextRules) (restricted : String → Bool) : VLib where
  Validate := Validator
  Translator := UTranslator
  Func := FieldLevel → Bool
  RegisterValidation := Validator.RegisterValidation restricted
  RegisterTranslation := Validator.RegisterTranslation
  Add := UTranslator.Add rules
  T := UTranslator.T rules
  Translate := Validator.Translate
  ParseAcceptLanguage := acceptLanguageExamples

/-- The characters a custom tag may not contain (`restrictedTagChars`) and the
tags the validator keeps for itself (`restrictedTags`, as of v10.4). -/
def restrictedTag (tag : String) : Bool :=
  tag.data.any (fun c => c ∈ ".[],|=+()`~!@#$%^&*\\\"/?<>{}".data) ||
    tag ∈ ["dive", "keys", "endkeys", "structonly", "omitempty", "-", "0x2C", "0x7C",
      "nostructlevel", "required"]

/-- Every translator of the registry stands under its own locale. -/
def WellKeyed (m : GoMap UTranslator) : Prop :=
  ∀ k t, m.get? k = some t → t.locale = k

/-- A translation of `tag` is registered for `locale` in the package state: the
registry's translator for `locale` holds `text` under `tag`, and the validator
holds a translation func for that translator and `tag`. -/
def Registered (rules : TextRules) (restricted : String → Bool)
    (g : Globals (recordingLib rules restricted)) (tag locale text : String) : Prop :=
  (∃ t : UTranslator, g.translators.get? locale = some t ∧ t.translations.get? tag = some text) ∧
  ∃ (v : Validator) (m : GoMap (UTranslator → FieldError → Outcome String)),
    g.V = some v ∧ v.transTagFunc.get? locale = some m ∧ (m.get? tag).isSome = true

/-- A rule for the tag `tz`: the field is a time zone name. -/
def validateTimeZone (fl : FieldLevel) : Bool :=
  fl.Field.String = "UTC" || fl.Field.String = "Europe/Moscow"

/-- A package state of `recordingLib`: a validator without custom rules or
translations, and the translators `en` and `ru`. -/
def recording : Globals (recordingLib textRules restrictedTag) :=
  { V := some ⟨[], []⟩, translators := [("en", ⟨"en", []⟩), ("ru", ⟨"ru", []⟩)] }

/-- The body of the loop of `RegisterCustomValidator` (lines 141-156): the
states of `V` and of `translators` after one pair of `messages`. -/
def RegisterCustomValidator.loop (L : VLib) (tag : String)
    (st : L.Validate × GoMap L.Translator) (entry : String × String) :
    L.Validate × GoMap L.Translator :=
  match st.2.get? entry.1 with
  | none => st
  | some tr =>
    let res := L.RegisterTranslation st.1 tag tr
      (fun ut => L.Add ut tag entry.2 true) (RegisterCustomValidator.translationFn L tag)
    (res.1, st.2.set entry.1 res.2.1)

/-- A translation of `tag` is registered for `locale` in the states of the
validator and of the registry: see `Registered`. -/
def RegisteredIn (st : Validator × GoMap UTranslator) (tag locale text : String) : Prop :=
  (∃ t : UTranslator, st.2.get? locale = some t ∧ t.translations.get? tag = some text) ∧
  ∃ m : GoMap (UTranslator → FieldError → Outcome String),
    st.1.transTagFunc.get? locale = some m ∧ (m.get? tag).isSome = true

/-- The rule of the validator for the tag `alpha`: letters `a`-`z` and `A`-`Z`
only, and at least one. -/
def isAlpha (fl : FieldLevel) : Bool :=
  fl.Field.String ≠ "" && fl.Field.String.data.all Char.isAlpha

/-- The destination type `Guest struct { Name string }`, the field tagged
`json:"-"` and `validate:"alpha"`. The value is the name, which the caller
fills in; the body carries no field. Validation applies the rule the validator
holds for `alpha`: the custom one when one was registered, its own otherwise. -/
def guest (rules : TextRules) : Codec (recordingLib rules restrictedTag) String where
  unmarshal := unmarshalNoFields "main.Guest"
  Struct := fun v dst =>
    let rule : FieldLevel → Bool := (v.validations.get? "alpha").getD isAlpha
    if rule ⟨.string dst⟩ then none
    else some (.ValidationErrors [⟨"Guest.Name", "Name", "alpha", ""⟩])

/-- A custom rule for the tag `alpha`: letters and spaces only, and at least
one character. -/
def lettersAndSpaces (fl : FieldLevel) : Bool :=
  fl.Field.String ≠ "" && fl.Field.String.data.all fun c => c.isAlpha || c = ' '

/-- A message with the parameter `{0}`, as the validator's own translations
have it for the field name. -/
def lettersMessage : String := "\x7b0\x7d must consist of letters"

/-- The parameter `{0}` without its closing brace. -/
def openParam : String := "\x7b0"

/-! ## Lemmas on maps -/

theorem GoMap.get?_set {β : Type} (m : GoMap β) (k k1 : String) (v : β) :
    (m.set k v).get? k1 = if k = k1 then some v else m.get? k1 := by
  induction m with
  | nil => simp [GoMap.set, GoMap.get?]
  | cons p m ih =>
    obtain ⟨k2, v2⟩ := p
    by_cases h : k2 = k
    · subst h
      by_cases h1 : k2 = k1 <;> simp [GoMap.set, GoMap.get?, h1]
    · by_cases h1 : k2 = k1
      · subst h1
        have h2 : ¬ k = k2 := fun e => h e.symm
        simp [GoMap.set, GoMap.get?, h, h2]
      · simp [GoMap.set, GoMap.get?, h, h1, ih]

theorem GoMap.mem_keys_iff {β : Type} (m : GoMap β) (k : String) :
    k ∈ m.keys ↔ (m.get? k).isSome = true := by
  induction m with
  | nil => simp [GoMap.keys, GoMap.get?]
  | cons p m ih =>
    obtain ⟨k2, v2⟩ := p
    by_cases h : k2 = k
    · simp [GoMap.keys, GoMap.get?, h]
    · have h2 : ¬ k = k2 := fun e => h e.symm
      simp only [GoMap.keys] at ih
      simp [GoMap.keys, GoMap.get?, h, h2, ih]

theorem GoMap.keys_set {β : Type} (m : GoMap β) (k : String) (v : β) :
    (m.set k v).keys = if k ∈ m.keys then m.keys else m.keys ++ [k] := by
  induction m with
  | nil => simp [GoMap.set, GoMap.keys]
  | cons p m ih =>
    obtain ⟨k2, v2⟩ := p
    simp only [GoMap.keys] at ih
    by_cases h : k2 = k
    · simp [GoMap.set, GoMap.keys, h]
    · have h2 : ¬ k = k2 := fun e => h e.symm
      by_cases h3 : k ∈ List.map Prod.fst m
      · simp [GoMap.set, GoMap.keys, h, h2, h3, ih]
      · simp [GoMap.set, GoMap.keys, h, h2, h3, ih]

theorem GoMap.nodup_keys_set {β : Type} (m : GoMap β) (k : String) (v : β)
    (h : m.keys.Nodup) : (m.set k v).keys.Nodup := by
  rw [GoMap.keys_set]
  split
  · exact h
  · rename_i hk
    rw [List.nodup_append]
    refine ⟨h, List.nodup_singleton k, ?_⟩
    intro a ha hb
    simp at hb
    subst hb
    exact hk ha

/-! ## The loop that builds the field error map -/

theorem details_get? (tr : FieldError → String) (ve : List FieldError) (m : GoMap String)
    (k : String) :
    (ve.foldl (fun details fe => GoMap.set details fe.Field (tr fe)) m).get? k =
      match ve.reverse.find? (fun fe => fe.Field = k) with
      | some fe => some (tr fe)
      | none => m.get? k := by
  induction ve generalizing m with
  | nil => simp
  | cons fe ve ih =>
    rw [List.foldl_cons, ih, List.reverse_cons, List.find?_append]
    cases hfind : List.find? (fun fe => decide (fe.Field = k)) ve.reverse with
    | some f => simp
    | none =>
      by_cases h : fe.Field = k
      · simp [GoMap.get?_set, h]
      · simp [GoMap.get?_set, h]

theorem details_nodup (tr : FieldError → String) (ve : List FieldError) (m : GoMap String)
    (h : m.keys.Nodup) :
    (ve.foldl (fun details fe => GoMap.set details fe.Field (tr fe)) m).keys.Nodup := by
  induction ve generalizing m with
  | nil => simpa using h
  | cons fe ve ih => exact ih _ (GoMap.nodup_keys_set m _ _ h)

theorem details_keys (tr : FieldError → String) (ve : List FieldError) (k : String) :
    k ∈ (ve.foldl (fun details fe => GoMap.set details fe.Field (tr fe)) []).keys ↔
      ∃ fe ∈ ve, fe.Field = k := by
  rw [GoMap.mem_keys_iff, details_get?]
  cases hfind : List.find? (fun fe => decide (fe.Field = k)) ve.reverse with
  | some f =>
    have h1 := List.mem_of_find?_eq_some hfind
    have h2 := List.find?_some hfind
    simp only [decide_eq_true_eq] at h2
    simp only [Option.isSome_some, true_iff]
    exact ⟨f, List.mem_reverse.mp h1, h2⟩
  | none =>
    simp only [GoMap.get?, Option.isSome_none, Bool.false_eq_true, false_iff]
    rintro ⟨fe, hmem, hk⟩
    rw [List.find?_eq_none] at hfind
    have := hfind fe (List.mem_reverse.mpr hmem)
    simp [hk] at this

/-- While every `Translate` returns, the loop is the fold over the field
errors, with one call for each. -/
theorem translate_of_returns (L : VLib) (v : L.Validate) (tr : Option L.Translator)
    (ve : List FieldError) (m : GoMap String)
    (h : ∀ fe ∈ ve, ∃ text, L.Translate v fe tr = .ret text) :
    BindValidate.translate L v tr ve m =
      (ve.foldl (fun details fe => GoMap.set details fe.Field ((L.Translate v fe tr).getD "")) m,
        ve.map Call.Translate, none) := by
  induction ve generalizing m with
  | nil => rfl
  | cons fe ve ih =>
    obtain ⟨text, htext⟩ := h fe (List.mem_cons_self _ _)
    have hrest := ih (m.set fe.Field text) fun f hf => h f (List.mem_cons_of_mem _ hf)
    simp only [BindValidate.translate, htext, hrest, List.foldl_cons, List.map_cons, Outcome.getD]

/-- The loop ends in a panic exactly when a `Translate` panics, and the panic
is that of a `Translate`. -/
theorem translate_panic (L : VLib) (v : L.Validate) (tr : Option L.Translator)
    (ve : List FieldError) (m : GoMap String) (msg : String)
    (h : (BindValidate.translate L v tr ve m).2.2 = some msg) :
    ∃ fe ∈ ve, L.Translate v fe tr = .panic msg := by
  induction ve generalizing m with
  | nil => simp [BindValidate.translate] at h
  | cons fe ve ih =>
    cases htr : L.Translate v fe tr with
    | panic msg1 =>
      simp only [BindValidate.translate, htr, Option.some.injEq] at h
      exact ⟨fe, List.mem_cons_self _ _, by rw [htr, h]⟩
    | ret text =>
      simp only [BindValidate.translate, htr] at h
      obtain ⟨f, hf, hp⟩ := ih _ h
      exact ⟨f, List.mem_cons_of_mem _ hf, hp⟩

theorem translate_panic_of_mem (L : VLib) (v : L.Validate) (tr : Option L.Translator)
    (ve : List FieldError) (m : GoMap String) (fe : FieldError) (msg : String)
    (hmem : fe ∈ ve) (h : L.Translate v fe tr = .panic msg) :
    (BindValidate.translate L v tr ve m).2.2 ≠ none := by
  intro hnone
  induction ve generalizing m with
  | nil => simp at hmem
  | cons f ve ih =>
    cases htr : L.Translate v f tr with
    | panic msg1 => simp [BindValidate.translate, htr] at hnone
    | ret text =>
      simp only [BindValidate.translate, htr] at hnone
      rcases List.mem_cons.mp hmem with heq | hrest
      · rw [← heq, h] at htr
        exact Outcome.noConfusion htr
      · exact ih _ hrest hnone

/-- The loop calls nothing but `Translate`. -/
theorem translate_calls (L : VLib) (v : L.Validate) (tr : Option L.Translator)
    (ve : List FieldError) (m : GoMap String) :
    ∀ c ∈ (BindValidate.translate L v tr ve m).2.1, ∃ fe, c = Call.Translate fe := by
  induction ve generalizing m with
  | nil => simp [BindValidate.translate]
  | cons fe ve ih =>
    intro c hc
    cases htr : L.Translate v fe tr with
    | panic msg1 =>
      simp only [BindValidate.translate, htr, List.mem_singleton] at hc
      exact ⟨fe, hc⟩
    | ret text =>
      simp only [BindValidate.translate, htr, List.mem_cons] at hc
      rcases hc with hc | hc
      · exact ⟨fe, hc⟩
      · exact ih _ c hc

/-! ## `BindValidate`, case by case -/

theorem BindValidate_of_decode_error {T : Type} (L : VLib) (C : Codec L T) (g : Globals L)
    (r : Request) (dst : T) (hlen : r.ContentLength ≠ 0) (err : GoError)
    (hdec : (decodeBody C r dst).2.2 = some err) :
    BindValidate L C g r dst =
      ⟨(decodeBody C r dst).2.1, none,
        some (match r.ctxErr with
          | some cerr => cerr.toError
          | none => .Errorf_w_v .errDecode err),
        [.Decode, .BodyClose], none⟩ := by
  rcases hd : decodeBody C r dst with ⟨dec1, dst1, e⟩
  rw [hd] at hdec
  simp only at hdec
  subst hdec
  cases hc : r.ctxErr <;> simp [BindValidate, hlen, hd, hc]

theorem BindValidate_of_more {T : Type} (L : VLib) (C : Codec L T) (g : Globals L)
    (r : Request) (dst : T) (hlen : r.ContentLength ≠ 0)
    (hdec : (decodeBody C r dst).2.2 = none) (hmore : (decodeBody C r dst).1.More = true) :
    BindValidate L C g r dst =
      ⟨(decodeBody C r dst).2.1, none,
        some (.Errorf_w .errDecode "extra data after JSON object"),
        [.Decode, .More, .BodyClose], none⟩ := by
  rcases hd : decodeBody C r dst with ⟨dec1, dst1, e⟩
  rw [hd] at hdec hmore
  simp only at hdec hmore
  subst hdec
  simp [BindValidate, hlen, hd, hmore]

theorem BindValidate_of_passes {T : Type} (L : VLib) (C : Codec L T) (g : Globals L)
    (r : Request) (dst : T) (hpass : decodePasses C r dst) :
    BindValidate L C g r dst =
      BindValidate.validate L C g r (afterDecode C r dst)
        (if r.ContentLength ≠ 0 then [.Decode, .More] else [])
        (if r.ContentLength ≠ 0 then [.BodyClose] else []) := by
  by_cases hlen : r.ContentLength = 0
  · simp [BindValidate, afterDecode, hlen]
  · rcases hpass with h0 | ⟨hdec, hmore⟩
    · exact absurd h0 hlen
    · rcases hd : decodeBody C r dst with ⟨dec1, dst1, e⟩
      rw [hd] at hdec hmore
      simp only at hdec hmore
      subst hdec
      simp [BindValidate, afterDecode, hlen, hd, hmore]

/-- The validator check and validation panic exactly on the field error path,
when a `Translate` panics. -/
theorem validate_panic_iff {T : Type} (L : VLib) (C : Codec L T) (g : Globals L)
    (r : Request) (dst : T) (calls deferred : List Call) :
    (BindValidate.validate L C g r dst calls deferred).panic ≠ none ↔
      ∃ v err ve, g.V = some v ∧ C.Struct v dst = some err ∧
        errorsAsValidationErrors err = some ve ∧
        ∃ fe ∈ ve, ∃ msg, L.Translate v fe (TranslatorFor L g r) = .panic msg := by
  cases hV : g.V with
  | none => simp [BindValidate.validate, hV]
  | some v =>
    cases hs : C.Struct v dst with
    | none => simp [BindValidate.validate, hV, hs]
    | some err =>
      cases hve : errorsAsValidationErrors err with
      | none => simp [BindValidate.validate, hV, hs, hve]
      | some ve =>
        simp only [BindValidate.validate, hV, hs, hve, Option.some.injEq, exists_and_left,
          exists_eq_left']
        cases hloop : (BindValidate.translate L v (TranslatorFor L g r) ve []).2.2 with
        | none =>
          simp only [ne_eq, not_true_eq_false, false_iff]
          rintro ⟨fe, hmem, msg, hp⟩
          exact translate_panic_of_mem L v _ ve [] fe msg hmem hp hloop
        | some msg =>
          simp only [ne_eq, reduceCtorEq, not_false_eq_true, true_iff]
          obtain ⟨fe, hmem, hp⟩ := translate_panic L v _ ve [] msg hloop
          exact ⟨fe, hmem, msg, hp⟩

/-- The error of the validator check and validation, when they return. -/
theorem validate_err {T : Type} (L : VLib) (C : Codec L T) (g : Globals L)
    (r : Request) (dst : T) (calls deferred : List Call)
    (hret : (BindValidate.validate L C g r dst calls deferred).panic = none) :
    (BindValidate.validate L C g r dst calls deferred).err =
      (match g.V with
        | none => some .errValidatorUnset
        | some v => C.Struct v dst) := by
  cases hV : g.V with
  | none => simp [BindValidate.validate, hV]
  | some v =>
    cases hs : C.Struct v dst with
    | none => simp [BindValidate.validate, hV, hs]
    | some err =>
      cases hve : errorsAsValidationErrors err with
      | none => simp [BindValidate.validate, hV, hs, hve]
      | some ve =>
        simp only [BindValidate.validate, hV, hs, hve] at hret ⊢
        cases hloop : (BindValidate.translate L v (TranslatorFor L g r) ve []).2.2 with
        | none => rfl
        | some msg => simp [hloop] at hret

/-- The details of the validator check and validation, when they return: a map
exactly on the field error path. -/
theorem validate_details {T : Type} (L : VLib) (C : Codec L T) (g : Globals L)
    (r : Request) (dst : T) (calls deferred : List Call)
    (hret : (BindValidate.validate L C g r dst calls deferred).panic = none) :
    (BindValidate.validate L C g r dst calls deferred).details ≠ none ↔
      ∃ v err ve, g.V = some v ∧ C.Struct v dst = some err ∧
        errorsAsValidationErrors err = some ve := by
  cases hV : g.V with
  | none => simp [BindValidate.validate, hV]
  | some v =>
    cases hs : C.Struct v dst with
    | none => simp [BindValidate.validate, hV, hs]
    | some err =>
      cases hve : errorsAsValidationErrors err with
      | none => simp [BindValidate.validate, hV, hs, hve]
      | some ve =>
        simp only [BindValidate.validate, hV, hs, hve] at hret ⊢
        cases hloop : (BindValidate.translate L v (TranslatorFor L g r) ve []).2.2 with
        | none => exact ⟨fun _ => ⟨v, err, ve, rfl, hs, hve⟩, fun _ => by simp⟩
        | some msg => simp [hloop] at hret

/-- The calls of the validator check and validation: no `Decode` beyond those
made before, and `Struct` exactly when `V` is set. -/
theorem validate_calls {T : Type} (L : VLib) (C : Codec L T) (g : Globals L)
    (r : Request) (dst : T) :
    (BindValidate.validate L C g r dst [] []).dst = dst ∧
    Call.Decode ∉ (BindValidate.validate L C g r dst [] []).calls ∧
    (Call.Struct ∈ (BindValidate.validate L C g r dst [] []).calls ↔ g.V.isSome = true) := by
  cases hV : g.V with
  | none => simp [BindValidate.validate, hV]
  | some v =>
    cases hs : C.Struct v dst with
    | none => simp [BindValidate.validate, hV, hs]
    | some err =>
      cases hve : errorsAsValidationErrors err with
      | none => simp [BindValidate.validate, hV, hs, hve]
      | some ve =>
        have hcalls := translate_calls L v (TranslatorFor L g r) ve []
        have hno : Call.Decode ∉ (BindValidate.translate L v (TranslatorFor L g r) ve []).2.1 := by
          intro hmem
          obtain ⟨fe, hfe⟩ := hcalls _ hmem
          exact Call.noConfusion hfe
        simp only [BindValidate.validate, hV, hs, hve]
        cases hloop : (BindValidate.translate L v (TranslatorFor L g r) ve []).2.2 <;>
          simp [hno]

/-- A call that does not reach the validator check returns, without details. -/
theorem BindValidate_of_fails {T : Type} (L : VLib) (C : Codec L T) (g : Globals L)
    (r : Request) (dst : T) (hp : ¬ decodePasses C r dst) :
    (BindValidate L C g r dst).panic = none ∧ (BindValidate L C g r dst).details = none := by
  have hlen : r.ContentLength ≠ 0 := fun h => hp (Or.inl h)
  cases hdec : (decodeBody C r dst).2.2 with
  | some e =>
    rw [BindValidate_of_decode_error L C g r dst hlen e hdec]
    exact ⟨rfl, rfl⟩
  | none =>
    have hmore : (decodeBody C r dst).1.More = true := by
      by_contra hm
      exact hp (Or.inr ⟨hdec, by simpa using hm⟩)
    rw [BindValidate_of_more L C g r dst hlen hdec hmore]
    exact ⟨rfl, rfl⟩

/-- `BindValidate` panics exactly when validation is reached and fails with
field errors of which a `Translate` panics. -/
theorem BindValidate_panic_iff {T : Type} (L : VLib) (C : Codec L T) (g : Globals L)
    (r : Request) (dst : T) :
    (BindValidate L C g r dst).panic ≠ none ↔
      (decodePasses C r dst ∧ ∃ v err ve, g.V = some v ∧
        C.Struct v (afterDecode C r dst) = some err ∧
        errorsAsValidationErrors err = some ve ∧
        ∃ fe ∈ ve, ∃ msg, L.Translate v fe (TranslatorFor L g r) = .panic msg) := by
  by_cases hp : decodePasses C r dst
  · rw [BindValidate_of_passes L C g r dst hp, validate_panic_iff]
    simp only [hp, true_and]
  · simp only [(BindValidate_of_fails L C g r dst hp).1, ne_eq, not_true_eq_false, hp,
      false_and]

/-- The details `BindValidate` returns are a map exactly when validation was
reached and failed with field errors. -/
theorem BindValidate_details_iff {T : Type} (L : VLib) (C : Codec L T) (g : Globals L)
    (r : Request) (dst : T) (hret : (BindValidate L C g r dst).panic = none) :
    (BindValidate L C g r dst).details ≠ none ↔
      (decodePasses C r dst ∧ ∃ v err ve, g.V = some v ∧
        C.Struct v (afterDecode C r dst) = some err ∧
        errorsAsValidationErrors err = some ve) := by
  by_cases hp : decodePasses C r dst
  · rw [BindValidate_of_passes L C g r dst hp] at hret ⊢
    rw [validate_details L C g r _ _ _ hret]
    simp only [hp, true_and]
  · simp only [(BindValidate_of_fails L C g r dst hp).2, ne_eq, not_true_eq_false, hp,
      false_and]

/-! ## Lemmas on the decoder and the size limit -/

theorem isSpace_space : isSpace (byte ' ') = true := by decide

theorem nonSpace_replicate (n : Nat) : nonSpace (List.replicate n (byte ' ')) = false := by
  induction n with
  | zero => rfl
  | succ n ih =>
    simp only [nonSpace, List.replicate_succ, List.any_cons, isSpace_space] at ih ⊢
    simpa using ih

theorem dropWhile_isSpace_replicate (n : Nat) :
    (List.replicate n (byte ' ')).dropWhile isSpace = [] := by
  rw [List.dropWhile_replicate, isSpace_space]
  rfl

/-- Scanning white space from the start of a value reads on to the end of the
stream and returns its error (`io.EOF` when that is how it ends). -/
theorem readValueLoop_spaces (err : GoError) (all : List Byte) (hall : nonSpace all = false)
    (n : Nat) (s : Scanner) (scanp : Nat) (hs : s.step = .stateBeginValue) :
    (readValueLoop err all s (List.replicate n (byte ' ')) scanp).2 = .error err := by
  induction n generalizing s scanp with
  | zero =>
    by_cases he : err = .EOF
    · subst he
      simp [readValueLoop, Scanner.run, hs, Scanner.stateBeginValue, isSpace_space, hall]
    · simp [readValueLoop, he]
  | succ n ih =>
    have hrun : Scanner.run { s with bytes := s.bytes + 1 } (byte ' ') =
        ({ s with bytes := s.bytes + 1 }, .scanSkipSpace) := by
      simp [Scanner.run, hs, Scanner.stateBeginValue, isSpace_space]
    rw [List.replicate_succ, readValueLoop]
    simp only [hrun]
    exact ih _ _ hs

/-- The body `{}` followed by anything: the first value is the two bytes `{}`. -/
theorem readValue_empty_object (err : GoError) (rest : List Byte) :
    (NewDecoder ⟨byte '{' :: byte '}' :: rest, err⟩).readValue.2 = .ok 2 := by
  rfl

/-- A scan that ends at the end of a stream with `io.EOF` or
`io.ErrUnexpectedEOF` has read every byte without finishing a value or
meeting a syntax error: on a stream ending with another error it returns that
error. -/
theorem readValueLoop_unfinished (err : GoError) (herr : err ≠ .EOF) (all all1 : List Byte)
    (buf : List Byte) (s : Scanner) (scanp : Nat)
    (h : (readValueLoop .EOF all s buf scanp).2 = .error .EOF ∨
      (readValueLoop .EOF all s buf scanp).2 = .error .ErrUnexpectedEOF) :
    (readValueLoop err all1 s buf scanp).2 = .error err := by
  induction buf generalizing s scanp with
  | nil => simp [readValueLoop, herr]
  | cons c buf ih =>
    rw [readValueLoop] at h ⊢
    rcases hrun : Scanner.run { s with bytes := s.bytes + 1 } c with ⟨s1, op⟩
    simp only [hrun] at h ⊢
    cases op with
    | scanEnd => simp at h
    | scanError =>
      cases hs1 : s1.err <;> simp [hs1] at h
    | scanEndObject =>
      rcases hend : Scanner.stateEndValue s1 (byte ' ') with ⟨s2, op2⟩
      simp only [hend] at h ⊢
      by_cases hop : op2 = .scanEnd
      · simp [hop] at h
      · simp only [hop, if_false] at h ⊢
        exact ih _ _ h
    | scanEndArray =>
      rcases hend : Scanner.stateEndValue s1 (byte ' ') with ⟨s2, op2⟩
      simp only [hend] at h ⊢
      by_cases hop : op2 = .scanEnd
      · simp [hop] at h
      · simp only [hop, if_false] at h ⊢
        exact ih _ _ h
    | _ => exact ih _ _ h

theorem decodeBody_of_readValue_error {T : Type} {L : VLib} (C : Codec L T) (r : Request)
    (dst : T) (err : GoError)
    (h : (NewDecoder (MaxBytesReader r.Body maxBodySize)).readValue.2 = .error err) :
    (decodeBody C r dst).2.2 = some err := by
  simp only [decodeBody, Decoder.Decode, Decoder.DisallowUnknownFields]
  simp only [Decoder.readValue, NewDecoder] at h ⊢
  simp only [h]

theorem decodeBody_of_readValue_ok {T : Type} {L : VLib} (C : Codec L T) (r : Request)
    (dst : T) (n : Nat)
    (h : (NewDecoder (MaxBytesReader r.Body maxBodySize)).readValue.2 = .ok n) :
    (decodeBody C r dst).2 =
        C.unmarshal true ((MaxBytesReader r.Body maxBodySize).data.take n) dst ∧
      (decodeBody C r dst).1.r =
        ⟨(MaxBytesReader r.Body maxBodySize).data.drop n, (MaxBytesReader r.Body maxBodySize).err⟩ := by
  simp only [decodeBody, Decoder.Decode, Decoder.DisallowUnknownFields]
  simp only [Decoder.readValue, NewDecoder] at h ⊢
  simp only [h, and_self]

theorem readValue_snd (r : Reader) :
    (NewDecoder r).readValue.2 = (readValueLoop r.err r.data (NewDecoder r).scan.reset r.data 0).2 :=
  rfl

/-- A stream of white space only: `readValue` returns the error that ends it. -/
theorem readValue_spaces (n : Nat) (err : GoError) :
    (NewDecoder ⟨List.replicate n (byte ' '), err⟩).readValue.2 = .error err := by
  rw [readValue_snd]
  exact readValueLoop_spaces err _ (nonSpace_replicate n) n _ 0 rfl

theorem MaxBytesReader_spaces (n : Nat) :
    MaxBytesReader ⟨List.replicate (n + 1) (byte ' '), .EOF⟩ n =
      ⟨List.replicate n (byte ' '), .MaxBytesError n⟩ := by
  have hmin : min n (n + 1) = n := by simp
  simp only [MaxBytesReader, List.length_replicate]
  rw [if_neg (by omega), List.take_replicate, hmin]

theorem length_spaces (n : Nat) : n < (List.replicate (n + 1) (byte ' ')).length := by
  simp only [List.length_replicate]
  omega

theorem maxBodySize_eq : maxBodySize = 8388606 + 2 := by decide

theorem spaces_unfinished :
    (NewDecoder ⟨List.take maxBodySize
      (request 8388609 (List.replicate (maxBodySize + 1) (byte ' ')) none).Body.data,
      .EOF⟩).readValue.2 = .error .EOF := by
  have hmin : min maxBodySize (maxBodySize + 1) = maxBodySize := by simp
  have hbody : (request 8388609 (List.replicate (maxBodySize + 1) (byte ' ')) none).Body.data =
      List.replicate (maxBodySize + 1) (byte ' ') := rfl
  rw [hbody, List.take_replicate, hmin]
  exact readValue_spaces maxBodySize .EOF

/-- A body of `maxBodySize + 1` spaces: `Decode` reads up to the limit and
`BindValidate` returns the size-limit error formatted into an `errDecode`. -/
theorem BindValidate_spaces_too_large :
    (BindValidate bareLib emptyStruct ready
        (request 8388609 (List.replicate (maxBodySize + 1) (byte ' ')) none) ()).err =
      some (.Errorf_w_v .errDecode (.MaxBytesError maxBodySize)) := by
  have hlim : MaxBytesReader
      (request 8388609 (List.replicate (maxBodySize + 1) (byte ' ')) none).Body maxBodySize =
      ⟨List.replicate maxBodySize (byte ' '), .MaxBytesError maxBodySize⟩ :=
    MaxBytesReader_spaces maxBodySize
  have hread : (NewDecoder (MaxBytesReader
      (request 8388609 (List.replicate (maxBodySize + 1) (byte ' ')) none).Body
      maxBodySize)).readValue.2 = .error (.MaxBytesError maxBodySize) := by
    rw [hlim]
    exact readValue_spaces maxBodySize _
  rw [BindValidate_of_decode_error bareLib emptyStruct ready _ () (by simp [request]) _
    (decodeBody_of_readValue_error emptyStruct _ () _ hread)]
  rfl

/-! ## The claims -/

/-- C1: when `ContentLength` is not zero, the context is not done and the body
fails to decode (`Decode` returns an error, or `More` finds a further value),
`BindValidate` returns (it does not panic) nil details and an error that wraps
`errDecode`; no
validation is attempted, and the result is the same for every state of `V` and
`translators` and whatever validating `dst` would report. -/
theorem BindValidate_decode_failure {T : Type} (L : VLib) (C : Codec L T) (g : Globals L)
    (r : Request) (dst : T) (hlen : r.ContentLength ≠ 0) (hctx : r.ctxErr = none)
    (hfail : (decodeBody C r dst).2.2 ≠ none ∨ (decodeBody C r dst).1.More = true) :
    (BindValidate L C g r dst).panic = none ∧
    (BindValidate L C g r dst).details = none ∧
    (∃ e, (BindValidate L C g r dst).err = some e ∧ e.Unwrap = some .errDecode ∧
      errorsIs e .errDecode = true) ∧
    Call.Struct ∉ (BindValidate L C g r dst).calls ∧
    (∀ (g1 : Globals L) (C1 : Codec L T), C1.unmarshal = C.unmarshal →
      BindValidate L C1 g1 r dst = BindValidate L C g r dst) := by
  have hsame : ∀ C1 : Codec L T, C1.unmarshal = C.unmarshal →
      decodeBody C1 r dst = decodeBody C r dst := by
    intro C1 h
    simp [decodeBody, h]
  cases hdec : (decodeBody C r dst).2.2 with
  | some err =>
    have hres := fun (g1 : Globals L) (C1 : Codec L T) (h : C1.unmarshal = C.unmarshal) =>
      BindValidate_of_decode_error L C1 g1 r dst hlen err (by rw [hsame C1 h]; exact hdec)
    rw [hres g C rfl]
    refine ⟨rfl, rfl, ⟨_, rfl, ?_, ?_⟩, by simp, ?_⟩
    · simp [hctx, GoError.Unwrap]
    · simp [hctx, errorsIs]
    · intro g1 C1 h
      rw [hres g1 C1 h, hsame C1 h]
  | none =>
    have hmore : (decodeBody C r dst).1.More = true := by
      rcases hfail with h | h
      · exact absurd hdec h
      · exact h
    have hres := fun (g1 : Globals L) (C1 : Codec L T) (h : C1.unmarshal = C.unmarshal) =>
      BindValidate_of_more L C1 g1 r dst hlen (by rw [hsame C1 h]; exact hdec)
        (by rw [hsame C1 h]; exact hmore)
    rw [hres g C rfl]
    refine ⟨rfl, rfl, ⟨_, rfl, ?_, ?_⟩, by simp, ?_⟩
    · simp [GoError.Unwrap]
    · simp [errorsIs]
    · intro g1 C1 h
      rw [hres g1 C1 h, hsame C1 h]

/-- C1 at the body `{` (an unfinished object) with `V` nil. -/
theorem BindValidate_decode_failure_witness :
    (BindValidate bareLib emptyStruct unset (request 1 unfinishedObject none) ()).panic = none ∧
    (BindValidate bareLib emptyStruct unset (request 1 unfinishedObject none) ()).details = none ∧
    (∃ e, (BindValidate bareLib emptyStruct unset (request 1 unfinishedObject none) ()).err = some e ∧
      e.Unwrap = some .errDecode ∧ errorsIs e .errDecode = true) ∧
    Call.Struct ∉ (BindValidate bareLib emptyStruct unset (request 1 unfinishedObject none) ()).calls ∧
    (∀ (g1 : Globals bareLib) (C1 : Codec bareLib Unit), C1.unmarshal = emptyStruct.unmarshal →
      BindValidate bareLib C1 g1 (request 1 unfinishedObject none) () =
        BindValidate bareLib emptyStruct unset (request 1 unfinishedObject none) ()) :=
  BindValidate_decode_failure bareLib emptyStruct unset (request 1 unfinishedObject none) ()
    (by decide) rfl (Or.inl (by decide))

/-- When the body decodes (or decoding is skipped), `V` is set,
`V.Struct(dst)` fails with an error in which `errors.As` finds the field errors
`ve`, and every `Translate` of the loop returns, `BindValidate` returns that
same error and a non-nil map whose keys are exactly the `Field()` of the
elements of `ve`, each once, and whose value at a key is
`Translate(TranslatorFor(r))` of the last element of `ve` with that
`Field()`. -/
theorem BindValidate_field_errors {T : Type} (L : VLib) (C : Codec L T) (g : Globals L)
    (r : Request) (dst : T) (v : L.Validate) (err : GoError) (ve : List FieldError)
    (hpass : decodePasses C r dst) (hV : g.V = some v)
    (hstruct : C.Struct v (afterDecode C r dst) = some err)
    (hve : errorsAsValidationErrors err = some ve)
    (hret : ∀ fe ∈ ve, ∃ text, L.Translate v fe (TranslatorFor L g r) = .ret text) :
    (BindValidate L C g r dst).panic = none ∧
    (BindValidate L C g r dst).err = some err ∧
    ∃ details, (BindValidate L C g r dst).details = some details ∧
      (∀ k, k ∈ details.keys ↔ ∃ fe ∈ ve, fe.Field = k) ∧
      details.keys.Nodup ∧
      ∀ k fe, ve.reverse.find? (fun f => f.Field = k) = some fe →
        ∃ text, L.Translate v fe (TranslatorFor L g r) = .ret text ∧
          details.get? k = some text := by
  rw [BindValidate_of_passes L C g r dst hpass]
  simp only [BindValidate.validate, hV, hstruct, hve,
    translate_of_returns L v (TranslatorFor L g r) ve [] hret, true_and]
  refine ⟨_, rfl, ?_, ?_, ?_⟩
  · intro k
    exact details_keys (fun fe => (L.Translate v fe (TranslatorFor L g r)).getD "") ve k
  · exact details_nodup (fun fe => (L.Translate v fe (TranslatorFor L g r)).getD "") ve []
      (by simp [GoMap.keys])
  · intro k fe hfind
    obtain ⟨text, htext⟩ := hret fe (List.mem_reverse.mp (List.mem_of_find?_eq_some hfind))
    refine ⟨text, htext, ?_⟩
    rw [details_get? (fun fe => (L.Translate v fe (TranslatorFor L g r)).getD "") ve [] k, hfind]
    simp only [htext, Outcome.getD]

/-- The field error map at the body `{}` decoded into an `Order` with both
streets empty: two field errors named `Street`, one map entry, the message of
the second. -/
theorem BindValidate_field_errors_at_order :
    BindValidate bareLib order ready (request 2 emptyObject none) ("", "") =
      ⟨("", ""),
        some [("Street",
          "Key: 'Order.Shipping.Street' Error:Field validation for 'Street' failed on the 'required' tag")],
        some (.ValidationErrors
          [⟨"Order.Billing.Street", "Street", "required", ""⟩,
           ⟨"Order.Shipping.Street", "Street", "required", ""⟩]),
        [.Decode, .More, .Struct, .TranslatorFor,
          .Translate ⟨"Order.Billing.Street", "Street", "required", ""⟩,
          .Translate ⟨"Order.Shipping.Street", "Street", "required", ""⟩, .BodyClose],
        none⟩ := by
  decide

/-- C2: the code at the failing input. `RegisterCustomValidator("alpha",
lettersAndSpaces, {"en": "{0} must consist of letters"})` returns nil and
registers the message on the `en` translator. For the request with body `{}`
and a `Guest` without name, `V.Struct` then fails with one field error of tag
`alpha`, and `BindValidate` panics in `fe.Translate(tr)`: the translation func
of `RegisterCustomValidator` calls `ut.T(tag)` without `params`. No map and no
error are returned. -/
theorem BindValidate_translate_panics :
    ∃ g1, RegisterCustomValidator (recordingLib textRules restrictedTag) recording "alpha"
        (some lettersAndSpaces) [("en", lettersMessage)] = .ret (g1, none) ∧
      Registered textRules restrictedTag g1 "alpha" "en" lettersMessage ∧
      (g1.V.map fun v => (guest textRules).Struct v "") =
        some (some (.ValidationErrors [⟨"Guest.Name", "Name", "alpha", ""⟩])) ∧
      BindValidate (recordingLib textRules restrictedTag) (guest textRules) g1
          (request 2 emptyObject none) "" =
        ⟨"", none, none,
          [.Decode, .More, .Struct, .TranslatorFor,
            .Translate ⟨"Guest.Name", "Name", "alpha", ""⟩, .BodyClose],
          some "runtime error: index out of range [0] with length 0"⟩ := by
  refine ⟨_, rfl, ⟨⟨_, rfl, rfl⟩, _, _, rfl, rfl, rfl⟩, rfl, rfl⟩

/-- C3: the body `{}}` (and `{}]`) with `ContentLength` 3 is one JSON value
followed by a stray bracket, and `BindValidate` accepts it: `More` answers
false at `}` and `]`, validation runs and the result is `(nil, nil)`. The body
`{}{}` is rejected with the trailing-data error. -/
theorem BindValidate_stray_bracket :
    BindValidate bareLib emptyStruct ready (request 3 strayBrace none) () =
      ⟨(), none, none, [.Decode, .More, .Struct, .BodyClose], none⟩ ∧
    BindValidate bareLib emptyStruct ready (request 3 strayBracket none) () =
      ⟨(), none, none, [.Decode, .More, .Struct, .BodyClose], none⟩ ∧
    BindValidate bareLib emptyStruct ready (request 4 twoObjects none) () =
      ⟨(), none, some (.Errorf_w .errDecode "extra data after JSON object"),
        [.Decode, .More, .BodyClose], none⟩ := by
  decide

/-- C4 as amended: when `ContentLength` is not zero, the context is not done, the
body is longer than `maxBodySize` and its first `maxBodySize` bytes are an
unfinished JSON text (decoded on their own they end in `io.EOF` or
`io.ErrUnexpectedEOF`), `BindValidate` fails without validating, with
`fmt.Errorf("%w: %v", errDecode, err)` for `err` the `*http.MaxBytesError`:
the error is in the class of `errDecode`, and the size-limit error is only
part of its text, not of its chain. -/
theorem BindValidate_body_too_large {T : Type} (L : VLib) (C : Codec L T) (g : Globals L)
    (r : Request) (dst : T) (hlen : r.ContentLength ≠ 0) (hctx : r.ctxErr = none)
    (hbig : maxBodySize < r.Body.data.length)
    (hhead :
      (NewDecoder ⟨r.Body.data.take maxBodySize, .EOF⟩).readValue.2 = .error .EOF ∨
      (NewDecoder ⟨r.Body.data.take maxBodySize, .EOF⟩).readValue.2 = .error .ErrUnexpectedEOF) :
    (BindValidate L C g r dst).panic = none ∧
    (BindValidate L C g r dst).details = none ∧
    (BindValidate L C g r dst).err =
      some (.Errorf_w_v .errDecode (.MaxBytesError maxBodySize)) ∧
    errorsIs (.Errorf_w_v .errDecode (.MaxBytesError maxBodySize)) .errDecode = true ∧
    errorsAsMaxBytesError (.Errorf_w_v .errDecode (.MaxBytesError maxBodySize)) = false ∧
    Call.Struct ∉ (BindValidate L C g r dst).calls := by
  have hlim : MaxBytesReader r.Body maxBodySize =
      ⟨r.Body.data.take maxBodySize, .MaxBytesError maxBodySize⟩ := by
    simp [MaxBytesReader, Nat.not_le.mpr hbig]
  have hread : (NewDecoder (MaxBytesReader r.Body maxBodySize)).readValue.2 =
      .error (.MaxBytesError maxBodySize) := by
    rw [hlim]
    simp only [Decoder.readValue, NewDecoder] at hhead ⊢
    exact readValueLoop_unfinished _ (by simp) _ _ _ _ _ hhead
  rw [BindValidate_of_decode_error L C g r dst hlen _ (decodeBody_of_readValue_error C r dst _ hread)]
  simp [hctx, errorsIs, errorsAsMaxBytesError]

/-- C4 as amended, at a body of `maxBodySize + 1` spaces. -/
theorem BindValidate_body_too_large_witness :
    maxBodySize <
      (request 8388609 (List.replicate (maxBodySize + 1) (byte ' ')) none).Body.data.length ∧
    (BindValidate bareLib emptyStruct ready
        (request 8388609 (List.replicate (maxBodySize + 1) (byte ' ')) none) ()).panic = none ∧
    (BindValidate bareLib emptyStruct ready
        (request 8388609 (List.replicate (maxBodySize + 1) (byte ' ')) none) ()).details = none ∧
    (BindValidate bareLib emptyStruct ready
        (request 8388609 (List.replicate (maxBodySize + 1) (byte ' ')) none) ()).err =
      some (.Errorf_w_v .errDecode (.MaxBytesError maxBodySize)) ∧
    errorsIs (.Errorf_w_v .errDecode (.MaxBytesError maxBodySize)) .errDecode = true ∧
    errorsAsMaxBytesError (.Errorf_w_v .errDecode (.MaxBytesError maxBodySize)) = false ∧
    Call.Struct ∉ (BindValidate bareLib emptyStruct ready
        (request 8388609 (List.replicate (maxBodySize + 1) (byte ' ')) none) ()).calls :=
  ⟨length_spaces maxBodySize,
    BindValidate_body_too_large bareLib emptyStruct ready
      (request 8388609 (List.replicate (maxBodySize + 1) (byte ' ')) none) ()
      (by simp [request]) rfl (length_spaces maxBodySize) (Or.inl spaces_unfinished)⟩

/-- C4 fails: a body of `maxBodySize + 1` spaces is longer than `maxBodySize`,
and the error `BindValidate` returns for it is `errDecode` wrapped around the
text of the size-limit error: `errors.Is(err, errDecode)` holds and no
`*http.MaxBytesError` is in the chain, so the caller cannot tell it from the
generic decode failure. -/
theorem BindValidate_size_limit_is_errDecode :
    maxBodySize < (List.replicate (maxBodySize + 1) (byte ' ')).length ∧
    (∃ e, (BindValidate bareLib emptyStruct ready
        (request 8388609 (List.replicate (maxBodySize + 1) (byte ' ')) none) ()).err = some e ∧
      errorsIs e .errDecode = true ∧ errorsAsMaxBytesError e = false) :=
  ⟨length_spaces maxBodySize,
    _, BindValidate_spaces_too_large, by simp [errorsIs], by simp [errorsAsMaxBytesError]⟩

/-- C5: when `ContentLength` is not zero, `Decode` fails and the context is done
at that moment, `BindValidate` returns (it does not panic) nil details and exactly the context's
error, which does not wrap `errDecode`; validation is not attempted. -/
theorem BindValidate_canceled {T : Type} (L : VLib) (C : Codec L T) (g : Globals L)
    (r : Request) (dst : T) (hlen : r.ContentLength ≠ 0) (err : GoError)
    (hdec : (decodeBody C r dst).2.2 = some err) (cerr : CtxErr)
    (hctx : r.ctxErr = some cerr) :
    (BindValidate L C g r dst).panic = none ∧
    (BindValidate L C g r dst).details = none ∧
    (BindValidate L C g r dst).err = some cerr.toError ∧
    errorsIs cerr.toError .errDecode = false ∧
    Call.Struct ∉ (BindValidate L C g r dst).calls := by
  rw [BindValidate_of_decode_error L C g r dst hlen err hdec]
  refine ⟨rfl, rfl, by simp [hctx], ?_, by simp⟩
  cases cerr <;> simp [CtxErr.toError, errorsIs]

/-- C5 at the body `{` with a canceled context. -/
theorem BindValidate_canceled_witness :
    (BindValidate bareLib emptyStruct ready (request 1 unfinishedObject (some .Canceled)) ()).panic
      = none ∧
    (BindValidate bareLib emptyStruct ready (request 1 unfinishedObject (some .Canceled)) ()).details
      = none ∧
    (BindValidate bareLib emptyStruct ready (request 1 unfinishedObject (some .Canceled)) ()).err
      = some CtxErr.Canceled.toError ∧
    errorsIs CtxErr.Canceled.toError .errDecode = false ∧
    Call.Struct ∉
      (BindValidate bareLib emptyStruct ready (request 1 unfinishedObject (some .Canceled)) ()).calls :=
  BindValidate_canceled bareLib emptyStruct ready (request 1 unfinishedObject (some .Canceled)) ()
    (by decide) .ErrUnexpectedEOF (by decide) .Canceled rfl

/-- C6 fails: with the context canceled before the body is read, the body `{}`
decodes and `BindValidate` returns `(nil, nil)`, and for the body `{}{}` it
returns the trailing-data error; neither is the context's error. -/
theorem BindValidate_canceled_not_reported :
    (request 2 emptyObject (some .Canceled)).ctxErr = some .Canceled ∧
    (BindValidate bareLib emptyStruct ready (request 2 emptyObject (some .Canceled)) ()).err
      = none ∧
    (BindValidate bareLib emptyStruct ready (request 4 twoObjects (some .Canceled)) ()).err
      = some (.Errorf_w .errDecode "extra data after JSON object") ∧
    (BindValidate bareLib emptyStruct ready (request 4 twoObjects (some .Canceled)) ()).err
      ≠ some CtxErr.Canceled.toError := by
  decide

/-- C6 as amended: with the context done, `BindValidate` returns (it does not
panic) the context's error when `ContentLength` is not zero and `Decode` fails;
in every other case
the context is not consulted and the result is that of the same request with a
context that is not done. -/
theorem BindValidate_cancellation {T : Type} (L : VLib) (C : Codec L T) (g : Globals L)
    (r : Request) (dst : T) (cerr : CtxErr) (hctx : r.ctxErr = some cerr) :
    (r.ContentLength ≠ 0 ∧ (decodeBody C r dst).2.2 ≠ none →
      (BindValidate L C g r dst).panic = none ∧
      (BindValidate L C g r dst).details = none ∧
      (BindValidate L C g r dst).err = some cerr.toError) ∧
    (¬ (r.ContentLength ≠ 0 ∧ (decodeBody C r dst).2.2 ≠ none) →
      BindValidate L C g r dst = BindValidate L C g { r with ctxErr := none } dst) := by
  constructor
  · rintro ⟨hlen, hdec⟩
    obtain ⟨err, herr⟩ := Option.ne_none_iff_exists'.mp hdec
    rw [BindValidate_of_decode_error L C g r dst hlen err herr]
    simp [hctx]
  · intro h
    by_cases hlen : r.ContentLength = 0
    · simp [BindValidate, BindValidate.validate, TranslatorFor, hlen]
    · have hdec : (decodeBody C r dst).2.2 = none := by
        by_contra hne
        exact h ⟨hlen, hne⟩
      rcases hd : decodeBody C r dst with ⟨dec1, dst1, e⟩
      rw [hd] at hdec
      simp only at hdec
      subst hdec
      have hd1 : decodeBody C { r with ctxErr := none } dst = (dec1, dst1, none) := by
        rw [← hd]
        rfl
      simp [BindValidate, BindValidate.validate, TranslatorFor, hlen, hd, hd1]

/-- C6 as amended, with a canceled context: at the body `{` the context's error
is returned, at the body `{}` the result is that of a context not done. -/
theorem BindValidate_cancellation_witness :
    (request 1 unfinishedObject (some .Canceled)).ctxErr = some .Canceled ∧
    ((BindValidate bareLib emptyStruct ready (request 1 unfinishedObject (some .Canceled)) ()).panic
        = none ∧
      (BindValidate bareLib emptyStruct ready (request 1 unfinishedObject (some .Canceled)) ()).details
        = none ∧
      (BindValidate bareLib emptyStruct ready (request 1 unfinishedObject (some .Canceled)) ()).err
        = some CtxErr.Canceled.toError) ∧
    BindValidate bareLib emptyStruct ready (request 2 emptyObject (some .Canceled)) () =
      BindValidate bareLib emptyStruct ready
        { request 2 emptyObject (some .Canceled) with ctxErr := none } () :=
  ⟨rfl,
    (BindValidate_cancellation bareLib emptyStruct ready
      (request 1 unfinishedObject (some .Canceled)) () .Canceled rfl).1 ⟨by decide, by decide⟩,
    (BindValidate_cancellation bareLib emptyStruct ready
      (request 2 emptyObject (some .Canceled)) () .Canceled rfl).2 (by decide)⟩

/-- C7 fails: a request with an empty body and `ContentLength` -1 (a chunked
request without data) is decoded, and `BindValidate` returns a decode error
(`errDecode` around `io.EOF`) without reaching validation. -/
theorem BindValidate_empty_body_decoded :
    (request (-1) [] none).Body.data = [] ∧
    BindValidate bareLib emptyStruct ready (request (-1) [] none) () =
      ⟨(), none, some (.Errorf_w_v .errDecode .EOF), [.Decode, .BodyClose], none⟩ ∧
    Call.Struct ∉ (BindValidate bareLib emptyStruct ready (request (-1) [] none) ()).calls := by
  decide

/-- C7 as amended: when `ContentLength` is zero, `BindValidate` does not decode:
`dst` is as the caller passed it, `Decode` is not called, and the call goes on
to the validator check and to validation: `Struct` is called exactly when `V`
is set, and the error returned is `errValidatorUnset` when `V` is nil and
otherwise that of `V.Struct(dst)`. The call returns unless a `Translate` of the
field errors panics. -/
theorem BindValidate_skips_decoding {T : Type} (L : VLib) (C : Codec L T) (g : Globals L)
    (r : Request) (dst : T) (hlen : r.ContentLength = 0) :
    (BindValidate L C g r dst).dst = dst ∧
    Call.Decode ∉ (BindValidate L C g r dst).calls ∧
    ((BindValidate L C g r dst).panic = none →
      (BindValidate L C g r dst).err =
        (match g.V with
          | none => some .errValidatorUnset
          | some v => C.Struct v dst)) ∧
    (Call.Struct ∈ (BindValidate L C g r dst).calls ↔ g.V.isSome = true) ∧
    ((BindValidate L C g r dst).panic ≠ none ↔
      ∃ v err ve, g.V = some v ∧ C.Struct v dst = some err ∧
        errorsAsValidationErrors err = some ve ∧
        ∃ fe ∈ ve, ∃ msg, L.Translate v fe (TranslatorFor L g r) = .panic msg) := by
  have hres : BindValidate L C g r dst = BindValidate.validate L C g r dst [] [] := by
    simp [BindValidate, hlen]
  rw [hres]
  have hcalls := validate_calls L C g r dst
  exact ⟨hcalls.1, hcalls.2.1, validate_err L C g r dst [] [], hcalls.2.2,
    validate_panic_iff L C g r dst [] []⟩

/-- C7 as amended, at a request without body for an `Order` with empty streets. -/
theorem BindValidate_skips_decoding_witness :
    (BindValidate bareLib order ready (request 0 [] none) ("", "")).dst = ("", "") ∧
    Call.Decode ∉ (BindValidate bareLib order ready (request 0 [] none) ("", "")).calls ∧
    ((BindValidate bareLib order ready (request 0 [] none) ("", "")).panic = none →
      (BindValidate bareLib order ready (request 0 [] none) ("", "")).err =
        (match ready.V with
          | none => some .errValidatorUnset
          | some v => order.Struct v ("", ""))) ∧
    (Call.Struct ∈ (BindValidate bareLib order ready (request 0 [] none) ("", "")).calls ↔
      ready.V.isSome = true) ∧
    ((BindValidate bareLib order ready (request 0 [] none) ("", "")).panic ≠ none ↔
      ∃ v err ve, ready.V = some v ∧ order.Struct v ("", "") = some err ∧
        errorsAsValidationErrors err = some ve ∧
        ∃ fe ∈ ve, ∃ msg,
          bareLib.Translate v fe (TranslatorFor bareLib ready (request 0 [] none)) = .panic msg) :=
  BindValidate_skips_decoding bareLib order ready (request 0 [] none) ("", "") rfl

/-- C8 fails: the body `{"a":1}` has a key that `struct{}` has no field for,
and with the context canceled `BindValidate` returns the context's error,
which does not wrap `errDecode`. -/
theorem BindValidate_unknown_field_canceled :
    (decodeBody emptyStruct (request 7 unknownKey (some .Canceled)) ()).2.2 =
      some (.UnknownField (ascii "\"a\"")) ∧
    (BindValidate bareLib emptyStruct ready (request 7 unknownKey (some .Canceled)) ()).err
      = some .Canceled ∧
    errorsIs .Canceled .errDecode = false := by
  decide

/-- C8 as amended: `BindValidate` decodes with `DisallowUnknownFields` set. When
`ContentLength` is not zero and unmarshalling the first JSON value of the body
with that flag reports a key without a field, `BindValidate` returns (it does
not panic) nil details without running validation; the error wraps `errDecode` while the
context is not done and is the context's error once it is done. -/
theorem BindValidate_unknown_field {T : Type} (L : VLib) (C : Codec L T) (g : Globals L)
    (r : Request) (dst : T) (n : Nat) (key : List Byte) (hlen : r.ContentLength ≠ 0)
    (hvalue : (NewDecoder (MaxBytesReader r.Body maxBodySize)).readValue.2 = .ok n)
    (hkey : (C.unmarshal true ((MaxBytesReader r.Body maxBodySize).data.take n) dst).2 =
      some (.UnknownField key)) :
    (BindValidate L C g r dst).panic = none ∧
    (BindValidate L C g r dst).details = none ∧
    Call.Struct ∉ (BindValidate L C g r dst).calls ∧
    (BindValidate L C g r dst).err =
      some (match r.ctxErr with
        | none => .Errorf_w_v .errDecode (.UnknownField key)
        | some cerr => cerr.toError) ∧
    errorsIs (.Errorf_w_v .errDecode (.UnknownField key)) .errDecode = true := by
  have hdec : (decodeBody C r dst).2.2 = some (.UnknownField key) := by
    rw [(decodeBody_of_readValue_ok C r dst n hvalue).1]
    exact hkey
  rw [BindValidate_of_decode_error L C g r dst hlen _ hdec]
  refine ⟨rfl, rfl, by simp, ?_, by simp [errorsIs]⟩
  cases r.ctxErr <;> rfl

/-- C8 as amended, at the body `{"a":1}` for `struct{}`. -/
theorem BindValidate_unknown_field_witness :
    (BindValidate bareLib emptyStruct ready (request 7 unknownKey none) ()).panic
      = none ∧
    (BindValidate bareLib emptyStruct ready (request 7 unknownKey none) ()).details
      = none ∧
    Call.Struct ∉
      (BindValidate bareLib emptyStruct ready (request 7 unknownKey none) ()).calls ∧
    (BindValidate bareLib emptyStruct ready (request 7 unknownKey none) ()).err =
      some (match (request 7 unknownKey none).ctxErr with
        | none => .Errorf_w_v .errDecode (.UnknownField (ascii "\"a\""))
        | some cerr => cerr.toError) ∧
    errorsIs (.Errorf_w_v .errDecode (.UnknownField (ascii "\"a\""))) .errDecode = true :=
  BindValidate_unknown_field bareLib emptyStruct ready (request 7 unknownKey none) ()
    7 (ascii "\"a\"") (by decide) rfl (by decide)

/-- C9: while `V` is nil, `RegisterCustomValidator` returns (it does not panic)
the validator-unset error and leaves the package state as it was, and
`BindValidate`, once decoding has succeeded or been skipped, returns (it does
not panic either) `(nil, errValidatorUnset)` without a call of `Struct`,
`TranslatorFor` or `Translate`. -/
theorem validator_unset {T : Type} (L : VLib) (C : Codec L T) (g : Globals L)
    (r : Request) (dst : T) (tag : String) (fn : Option L.Func) (messages : GoMap String)
    (hV : g.V = none) (hpass : decodePasses C r dst) :
    RegisterCustomValidator L g tag fn messages = .ret (g, some .ErrValidatorUnset) ∧
    (BindValidate L C g r dst).panic = none ∧
    (BindValidate L C g r dst).details = none ∧
    (BindValidate L C g r dst).err = some .errValidatorUnset ∧
    Call.Struct ∉ (BindValidate L C g r dst).calls ∧
    Call.TranslatorFor ∉ (BindValidate L C g r dst).calls ∧
    ∀ fe, Call.Translate fe ∉ (BindValidate L C g r dst).calls := by
  rw [BindValidate_of_passes L C g r dst hpass]
  refine ⟨by simp [RegisterCustomValidator, hV], ?_⟩
  by_cases hlen : r.ContentLength = 0 <;> simp [BindValidate.validate, hV, hlen]

/-- C9 with one message to register and the body `{}`. -/
theorem validator_unset_witness :
    RegisterCustomValidator bareLib unset "tz" (some ()) [("en", "Must be a valid IANA time zone")]
      = .ret (unset, some .ErrValidatorUnset) ∧
    (BindValidate bareLib order unset (request 2 emptyObject none) ("", "")).panic = none ∧
    (BindValidate bareLib order unset (request 2 emptyObject none) ("", "")).details = none ∧
    (BindValidate bareLib order unset (request 2 emptyObject none) ("", "")).err
      = some .errValidatorUnset ∧
    Call.Struct ∉ (BindValidate bareLib order unset (request 2 emptyObject none) ("", "")).calls ∧
    Call.TranslatorFor ∉
      (BindValidate bareLib order unset (request 2 emptyObject none) ("", "")).calls ∧
    ∀ fe, Call.Translate fe ∉
      (BindValidate bareLib order unset (request 2 emptyObject none) ("", "")).calls :=
  validator_unset bareLib order unset (request 2 emptyObject none) ("", "") "tz" (some ())
    [("en", "Must be a valid IANA time zone")] rfl (by decide)

/-- C10: when the body decodes (or decoding is skipped), `V` is set and
`V.Struct(dst)` returns no error, `BindValidate` returns (it does not panic)
`(nil, nil)`. -/
theorem BindValidate_success {T : Type} (L : VLib) (C : Codec L T) (g : Globals L)
    (r : Request) (dst : T) (v : L.Validate)
    (hpass : decodePasses C r dst) (hV : g.V = some v)
    (hstruct : C.Struct v (afterDecode C r dst) = none) :
    (BindValidate L C g r dst).panic = none ∧
    (BindValidate L C g r dst).details = none ∧ (BindValidate L C g r dst).err = none := by
  rw [BindValidate_of_passes L C g r dst hpass]
  simp [BindValidate.validate, hV, hstruct]

/-- C10 at the body `{}` decoded into an `Order` with both streets filled in. -/
theorem BindValidate_success_witness :
    (BindValidate bareLib order ready (request 2 emptyObject none) ("Main St", "Elm St")).panic
      = none ∧
    (BindValidate bareLib order ready (request 2 emptyObject none) ("Main St", "Elm St")).details
      = none ∧
    (BindValidate bareLib order ready (request 2 emptyObject none) ("Main St", "Elm St")).err
      = none :=
  BindValidate_success bareLib order ready (request 2 emptyObject none) ("Main St", "Elm St") ()
    (by decide) rfl (by decide)

/-! ## `baseLocale` -/

theorem take_indexOf_eq_takeWhile (a : Char) (l : List Char) :
    l.take (l.indexOf a) = l.takeWhile fun c => c != a := by
  induction l with
  | nil => rfl
  | cons c l ih =>
    by_cases h : c = a
    · subst h
      simp [List.indexOf_cons_self, List.takeWhile_cons]
    · have h1 : (c == a) = false := by simpa using h
      have h2 : (c != a) = true := by simpa using h
      simp [List.indexOf_cons, List.takeWhile_cons, h1, h2, ih]

theorem takeWhile_ne_of_not_mem (a : Char) (l : List Char) (h : a ∉ l) :
    (l.takeWhile fun c => c != a) = l := by
  rw [List.takeWhile_eq_self_iff]
  intro c hc
  have : c ≠ a := fun e => h (e ▸ hc)
  simpa using this

theorem baseLocale_eq (tag : String) :
    baseLocale tag = if tag.data.head? = some '-' then tag else baseSubtag tag := by
  obtain ⟨l⟩ := tag
  cases l with
  | nil => simp [baseLocale, IndexByte, baseSubtag]
  | cons c l =>
    by_cases hc : c = '-'
    · subst hc
      simp [baseLocale, IndexByte]
    · have hne : ¬ '-' = c := fun e => hc e.symm
      by_cases hmem : '-' ∈ l
      · have hpos : (0 : Int) < ((List.indexOf '-' (c :: l) : Nat) : Int) := by
          have h1 : (c == '-') = false := by simpa using hc
          simp [List.indexOf_cons, h1]
        simp only [baseLocale, IndexByte, List.mem_cons, hne, hmem, false_or, if_true,
          gt_iff_lt, hpos, Int.toNat_ofNat, baseSubtag, List.head?_cons, Option.some.injEq, hc,
          if_false]
        rw [take_indexOf_eq_takeWhile]
      · have h2 : (c != '-') = true := by simpa using hc
        simp [baseLocale, IndexByte, hne, hmem, baseSubtag, hc, List.takeWhile_cons, h2,
          takeWhile_ne_of_not_mem _ _ hmem]

/-! ## `html.EscapeString` -/

theorem length_le_flatMap_escapeChar (l : List Char) :
    l.length ≤ (l.flatMap escapeChar).length := by
  induction l with
  | nil => simp
  | cons c l ih =>
    have h : 1 ≤ (escapeChar c).length := by
      unfold escapeChar
      split_ifs <;> simp
    simp only [List.flatMap_cons, List.length_append, List.length_cons]
    omega

theorem escapeChar_of_not_special (c : Char) (h : isHTMLSpecial c = false) :
    escapeChar c = [c] := by
  simp only [isHTMLSpecial, Bool.or_eq_false_iff, decide_eq_false_iff_not] at h
  obtain ⟨⟨⟨⟨h1, h2⟩, h3⟩, h4⟩, h5⟩ := h
  simp [escapeChar, h1, h2, h3, h4, h5]

theorem flatMap_escapeChar_eq_self (l : List Char) :
    l.flatMap escapeChar = l ↔ ∀ c ∈ l, isHTMLSpecial c = false := by
  induction l with
  | nil => simp
  | cons c l ih =>
    cases hc : isHTMLSpecial c with
    | false =>
      simp only [List.flatMap_cons, escapeChar_of_not_special c hc, List.singleton_append,
        List.cons.injEq, true_and, List.mem_cons, forall_eq_or_imp, hc, ih]
    | true =>
      have hlen := length_le_flatMap_escapeChar l
      constructor
      · intro h
        exfalso
        have hl := congrArg List.length h
        simp only [List.flatMap_cons, List.length_append, List.length_cons] at hl
        have h2 : 2 ≤ (escapeChar c).length := by
          simp only [isHTMLSpecial, Bool.or_eq_true, decide_eq_true_eq] at hc
          unfold escapeChar
          split_ifs with a1 a2 a3 a4 a5
          · simp
          · simp
          · simp
          · simp
          · simp
          · tauto
        omega
      · intro h
        have := h c (List.mem_cons_self c l)
        rw [hc] at this
        exact absurd this (by simp)

/-! ## `TranslatorFor` -/

theorem GoMap.get?_eq_none_of_not_mem {β : Type} (m : GoMap β) (k : String)
    (h : k ∉ m.keys) : m.get? k = none := by
  rw [GoMap.mem_keys_iff] at h
  cases hk : m.get? k with
  | none => rfl
  | some v => simp [hk] at h

theorem GoMap.mem_keys_of_get? {β : Type} (m : GoMap β) (k : String) (v : β)
    (h : m.get? k = some v) : k ∈ m.keys := by
  rw [GoMap.mem_keys_iff, h]
  rfl

/-- In a registry with plain keys, looking up `baseLocale(tag)` is looking up
the base subtag of `tag`. -/
theorem get?_baseLocale {β : Type} (m : GoMap β) (hkeys : PlainKeys m) (tag : String) :
    m.get? (baseLocale tag) = m.get? (baseSubtag tag) := by
  rw [baseLocale_eq]
  split
  · rename_i hhead
    have h1 : m.get? tag = none := by
      apply GoMap.get?_eq_none_of_not_mem
      intro hmem
      exact (hkeys tag hmem).2 hhead
    have h2 : baseSubtag tag = "" := by
      obtain ⟨l⟩ := tag
      cases l with
      | nil => simp at hhead
      | cons c l =>
        simp only [List.head?_cons, Option.some.injEq] at hhead
        subst hhead
        simp [baseSubtag, List.takeWhile_cons]
    have h3 : m.get? "" = none := by
      apply GoMap.get?_eq_none_of_not_mem
      intro hmem
      exact (hkeys "" hmem).1 rfl
    rw [h1, h2, h3]
  · rfl

theorem get?_empty_of_plainKeys {β : Type} (m : GoMap β) (hkeys : PlainKeys m) :
    m.get? "" = none := by
  apply GoMap.get?_eq_none_of_not_mem
  intro hmem
  exact (hkeys "" hmem).1 rfl

/-- The three steps of `TranslatorFor` over a registry with plain keys, in terms
of the base subtag. -/
theorem TranslatorFor_eq (L : VLib) (g : Globals L) (r : Request)
    (hkeys : PlainKeys g.translators) :
    TranslatorFor L g r =
      match g.translators.get? (baseSubtag (Header.Get r.Header "X-Request-Lang")) with
      | some tr => some tr
      | none =>
        match (if Header.Get r.Header "Accept-Language" ≠ "" then
            match L.ParseAcceptLanguage (Header.Get r.Header "Accept-Language") with
            | .ok (tag :: _) => g.translators.get? (baseSubtag tag)
            | _ => none
          else none) with
        | some tr => some tr
        | none => g.translators.get? "en" := by
  have hx : (if baseLocale (Header.Get r.Header "X-Request-Lang") ≠ "" then
        g.translators.get? (baseLocale (Header.Get r.Header "X-Request-Lang")) else none) =
      g.translators.get? (baseSubtag (Header.Get r.Header "X-Request-Lang")) := by
    rw [← get?_baseLocale _ hkeys]
    split
    · rfl
    · rename_i h
      rw [not_not] at h
      rw [h, get?_empty_of_plainKeys _ hkeys]
  simp only [TranslatorFor, hx]
  cases hfirst : g.translators.get? (baseSubtag (Header.Get r.Header "X-Request-Lang")) with
  | some tr => rfl
  | none =>
    simp only
    by_cases hal : Header.Get r.Header "Accept-Language" = ""
    · simp [hal]
    · simp only [ne_eq, hal, not_false_eq_true, if_true]
      cases hparse : L.ParseAcceptLanguage (Header.Get r.Header "Accept-Language") with
      | error e => rfl
      | ok tags =>
        cases tags with
        | nil => rfl
        | cons tag rest => simp only [get?_baseLocale _ hkeys]

theorem Header.Get_set_other (h : GoMap (List String)) (key key1 : String) (vs : List String)
    (hne : key ≠ key1) : Header.Get (h.set key vs) key1 = Header.Get h key1 := by
  simp [Header.Get, GoMap.get?_set, hne]

/-! ## `init` -/

theorem keys_foldl_add (L : VLib) (I : InitLib L) (uni : I.UniversalTranslator)
    (entries : List (String × String)) (st : L.Validate × GoMap L.Translator) :
    (entries.foldl (init.add L I uni) st).2.keys =
      entries.foldl (fun ks e => if e.1 ∈ ks then ks else ks ++ [e.1]) st.2.keys := by
  induction entries generalizing st with
  | nil => rfl
  | cons e entries ih =>
    rw [List.foldl_cons, ih, List.foldl_cons]
    simp only [init.add, GoMap.keys_set]

/-- The registry `init` leaves has the eleven codes of lines 81-91 as its keys. -/
theorem init_keys (L : VLib) (I : InitLib L) (g0 g : Globals L)
    (hinit : init L I g0 = .ret g) :
    g.translators.keys = ["en", "ru", "de", "zh", "fr", "es", "lv", "it", "pt", "ja", "ko"] := by
  have hfold : ∀ (uni : I.UniversalTranslator) (v : L.Validate),
      (init.adds.foldl (init.add L I uni) (v, [])).2.keys =
        ["en", "ru", "de", "zh", "fr", "es", "lv", "it", "pt", "ja", "ko"] := by
    intro uni v
    rw [keys_foldl_add]
    have hnil : GoMap.keys (v, ([] : GoMap L.Translator)).2 = [] := rfl
    rw [hnil]
    decide
  unfold init at hinit
  cases hV : g0.V with
  | some v =>
    simp only [hV, Outcome.ret.injEq] at hinit
    rw [← hinit]
    exact hfold _ _
  | none =>
    simp only [hV] at hinit
    cases hreg : L.RegisterValidation I.New "nohtml" (some (I.toFunc nohtml)) with
    | panic msg => simp [hreg] at hinit
    | ret res =>
      simp only [hreg, Outcome.ret.injEq] at hinit
      rw [← hinit]
      exact hfold _ _

theorem plainKeys_of_keys {β : Type} (m : GoMap β)
    (h : m.keys = ["en", "ru", "de", "zh", "fr", "es", "lv", "it", "pt", "ja", "ko"]) :
    PlainKeys m := by
  unfold PlainKeys
  rw [h]
  decide

/-! ## `RegisterCustomValidator` -/

theorem RegisterCustomValidator_of_registered (L : VLib) (g : Globals L) (tag : String)
    (fn : Option L.Func) (messages : GoMap String) (v v1 : L.Validate) (hV : g.V = some v)
    (hreg : L.RegisterValidation v tag fn = .ret (v1, none)) :
    RegisterCustomValidator L g tag fn messages =
      .ret ({ V := some (messages.foldl (RegisterCustomValidator.loop L tag)
                  (v1, g.translators)).1,
              translators := (messages.foldl (RegisterCustomValidator.loop L tag)
                  (v1, g.translators)).2 }, none) := by
  simp only [RegisterCustomValidator, hV, hreg]
  rfl

theorem GoMap.set_same {β : Type} (m : GoMap β) (k : String) (v : β)
    (h : m.get? k = some v) : m.set k v = m := by
  induction m with
  | nil => simp [GoMap.get?] at h
  | cons p m ih =>
    obtain ⟨k1, v1⟩ := p
    by_cases hk : k1 = k
    · subst hk
      simp only [GoMap.get?, if_true, Option.some.injEq] at h
      subst h
      simp [GoMap.set]
    · simp only [GoMap.get?, hk, if_false] at h
      simp [GoMap.set, hk, ih h]

/-- One pair of `messages` leaves the keys of the registry as they are. -/
theorem loop_keys (L : VLib) (tag : String) (st : L.Validate × GoMap L.Translator)
    (entry : String × String) :
    (RegisterCustomValidator.loop L tag st entry).2.keys = st.2.keys := by
  unfold RegisterCustomValidator.loop
  cases h : st.2.get? entry.1 with
  | none => rfl
  | some tr =>
    simp only [GoMap.keys_set]
    rw [if_pos (GoMap.mem_keys_of_get? _ _ _ h)]

theorem foldl_loop_keys (L : VLib) (tag : String) (messages : GoMap String)
    (st : L.Validate × GoMap L.Translator) :
    (messages.foldl (RegisterCustomValidator.loop L tag) st).2.keys = st.2.keys := by
  induction messages generalizing st with
  | nil => rfl
  | cons e messages ih => rw [List.foldl_cons, ih, loop_keys]

/-! ## Registration in the recording library -/

theorem Add_locale (rules : TextRules) (t : UTranslator) (key text : String)
    (override : Bool) : (t.Add rules key text override).1.locale = t.locale := by
  unfold UTranslator.Add
  split_ifs
  · rfl
  · cases rules.refuses text <;> rfl

theorem Add_of_accepted (rules : TextRules) (t : UTranslator) (key text : String)
    (h : rules.refuses text = none) :
    t.Add rules key text true =
      ({ t with translations := t.translations.set key text }, none) := by
  unfold UTranslator.Add
  rw [if_neg (by simp), h]

theorem Add_of_refused (rules : TextRules) (t : UTranslator) (key text : String)
    (override : Bool) (err : GoError) (h : rules.refuses text = some err) :
    (t.Add rules key text override).1 = t ∧ (t.Add rules key text override).2.isSome = true := by
  unfold UTranslator.Add
  split_ifs
  · exact ⟨rfl, rfl⟩
  · rw [h]
    exact ⟨rfl, rfl⟩

theorem loop_get?_other (rules : TextRules) (restricted : String → Bool) (tag : String)
    (st : Validator × GoMap UTranslator) (entry : String × String) (l : String)
    (hne : entry.1 ≠ l) :
    (RegisterCustomValidator.loop (recordingLib rules restricted) tag st entry).2.get? l =
      st.2.get? l := by
  unfold RegisterCustomValidator.loop
  cases h : GoMap.get? st.2 entry.1 with
  | none => rfl
  | some tr =>
    simp only
    rw [GoMap.get?_set, if_neg hne]

theorem loop_wellKeyed (rules : TextRules) (restricted : String → Bool) (tag : String)
    (st : Validator × GoMap UTranslator) (entry : String × String) (hwk : WellKeyed st.2) :
    WellKeyed (RegisterCustomValidator.loop (recordingLib rules restricted) tag st entry).2 := by
  unfold RegisterCustomValidator.loop
  cases h : GoMap.get? st.2 entry.1 with
  | none => exact hwk
  | some tr =>
    intro k t hk
    simp only at hk
    rw [GoMap.get?_set] at hk
    by_cases hke : entry.1 = k
    · rw [if_pos hke] at hk
      have ht := Option.some.inj hk
      rw [← ht, ← hke, ← hwk _ _ h]
      simp only [recordingLib, Validator.RegisterTranslation]
      cases hadd : UTranslator.Add rules tr tag entry.2 true with
      | mk t1 e =>
        have hl := Add_locale rules tr tag entry.2 true
        rw [hadd] at hl
        cases e <;> exact hl
    · rw [if_neg hke] at hk
      exact hwk _ _ hk

theorem loop_transTagFunc_other (rules : TextRules) (restricted : String → Bool) (tag : String)
    (st : Validator × GoMap UTranslator) (entry : String × String) (l : String)
    (hwk : WellKeyed st.2) (hne : entry.1 ≠ l) :
    (RegisterCustomValidator.loop (recordingLib rules restricted) tag st entry).1.transTagFunc.get? l =
      st.1.transTagFunc.get? l := by
  unfold RegisterCustomValidator.loop
  cases h : GoMap.get? st.2 entry.1 with
  | none => rfl
  | some tr =>
    simp only [recordingLib, Validator.RegisterTranslation]
    cases hadd : UTranslator.Add rules tr tag entry.2 true with
    | mk t1 e =>
      have hl := Add_locale rules tr tag entry.2 true
      rw [hadd] at hl
      cases e with
      | some err => rfl
      | none =>
        simp only
        rw [GoMap.get?_set, if_neg]
        rw [show t1.locale = entry.1 from hl.trans (hwk _ _ h)]
        exact hne

theorem loop_frame (rules : TextRules) (restricted : String → Bool) (tag : String)
    (st : Validator × GoMap UTranslator) (entry : String × String) (l text : String)
    (hwk : WellKeyed st.2) (hne : entry.1 ≠ l) (h : RegisteredIn st tag l text) :
    RegisteredIn (RegisterCustomValidator.loop (recordingLib rules restricted) tag st entry)
      tag l text := by
  unfold RegisteredIn at h ⊢
  rw [loop_get?_other rules restricted tag st entry l hne,
    loop_transTagFunc_other rules restricted tag st entry l hwk hne]
  exact h

theorem loop_registers (rules : TextRules) (restricted : String → Bool) (tag : String)
    (st : Validator × GoMap UTranslator) (l text : String) (tr : UTranslator)
    (hwk : WellKeyed st.2) (hget : st.2.get? l = some tr) (hacc : rules.refuses text = none) :
    RegisteredIn (RegisterCustomValidator.loop (recordingLib rules restricted) tag st (l, text))
      tag l text := by
  have hloc : tr.locale = l := hwk _ _ hget
  unfold RegisteredIn RegisterCustomValidator.loop
  simp only [hget, recordingLib, Validator.RegisterTranslation, Add_of_accepted rules tr tag text hacc,
    hloc]
  refine ⟨⟨_, by rw [GoMap.get?_set, if_pos rfl], ?_⟩, _, by rw [GoMap.get?_set, if_pos rfl], ?_⟩
  · simp [GoMap.get?_set]
  · simp [GoMap.get?_set]

theorem foldl_loop_wellKeyed (rules : TextRules) (restricted : String → Bool) (tag : String)
    (messages : GoMap String) (st : Validator × GoMap UTranslator) (hwk : WellKeyed st.2) :
    WellKeyed (messages.foldl (RegisterCustomValidator.loop (recordingLib rules restricted) tag) st).2 := by
  induction messages generalizing st with
  | nil => exact hwk
  | cons e messages ih =>
    rw [List.foldl_cons]
    exact ih _ (loop_wellKeyed rules restricted tag st e hwk)

theorem foldl_loop_frame (rules : TextRules) (restricted : String → Bool) (tag : String)
    (messages : GoMap String) (st : Validator × GoMap UTranslator) (l text : String)
    (hwk : WellKeyed st.2) (hnot : l ∉ messages.keys) (h : RegisteredIn st tag l text) :
    RegisteredIn (messages.foldl (RegisterCustomValidator.loop (recordingLib rules restricted) tag) st)
      tag l text := by
  induction messages generalizing st with
  | nil => exact h
  | cons e messages ih =>
    simp only [GoMap.keys, List.map_cons, List.mem_cons, not_or] at hnot
    rw [List.foldl_cons]
    refine ih _ (loop_wellKeyed rules restricted tag st e hwk) hnot.2 ?_
    exact loop_frame rules restricted tag st e l text hwk (fun he => hnot.1 he.symm) h

/-- The loop of `RegisterCustomValidator` over all of `messages`: every pair
whose locale has a translator and whose text the translator takes is
registered at the end. -/
theorem foldl_loop_registers (rules : TextRules) (restricted : String → Bool) (tag : String)
    (messages : GoMap String) (st : Validator × GoMap UTranslator) (hwk : WellKeyed st.2)
    (hnodup : messages.keys.Nodup) (l text : String) (hmem : (l, text) ∈ messages)
    (hkey : l ∈ st.2.keys) (hacc : rules.refuses text = none) :
    RegisteredIn (messages.foldl (RegisterCustomValidator.loop (recordingLib rules restricted) tag) st)
      tag l text := by
  induction messages generalizing st with
  | nil => simp at hmem
  | cons e messages ih =>
    simp only [GoMap.keys, List.map_cons, List.nodup_cons] at hnodup
    rw [List.foldl_cons]
    have hwk1 := loop_wellKeyed rules restricted tag st e hwk
    rcases List.mem_cons.mp hmem with he | hrest
    · subst he
      rw [GoMap.mem_keys_iff] at hkey
      obtain ⟨tr, htr⟩ := Option.isSome_iff_exists.mp hkey
      exact foldl_loop_frame rules restricted tag messages _ l text hwk1 hnodup.1
        (loop_registers rules restricted tag st l text tr hwk htr hacc)
    · refine ih _ hwk1 hnodup.2 hrest ?_
      rw [loop_keys]
      exact hkey

/-- Whatever the rules of the translator: a message that `Add` refuses is
dropped. `RegisterCustomValidator` returns nil, and the translator, which held
no text for the tag, holds none after the call. -/
theorem RegisterCustomValidator_refused (rules : TextRules) (restricted : String → Bool)
    (g : Globals (recordingLib rules restricted)) (v v1 : Validator) (tag : String)
    (fn : Option (FieldLevel → Bool)) (locale text : String) (tr : UTranslator) (err : GoError)
    (hV : g.V = some v)
    (hreg : Validator.RegisterValidation restricted v tag fn = .ret (v1, none))
    (hget : g.translators.get? locale = some tr) (hnone : tr.translations.get? tag = none)
    (href : rules.refuses text = some err) :
    ∃ g1, RegisterCustomValidator (recordingLib rules restricted) g tag fn [(locale, text)] =
        .ret (g1, none) ∧
      ¬ Registered rules restricted g1 tag locale text := by
  refine ⟨_, RegisterCustomValidator_of_registered (recordingLib rules restricted) g tag fn
    [(locale, text)] v v1 hV hreg, ?_⟩
  rintro ⟨⟨t, ht, htext⟩, _⟩
  have hadd := Add_of_refused rules tr tag text true err href
  have hstate : (RegisterCustomValidator.loop (recordingLib rules restricted) tag
      (v1, g.translators) (locale, text)).2 = GoMap.set g.translators locale tr := by
    unfold RegisterCustomValidator.loop
    simp only [hget, recordingLib, Validator.RegisterTranslation]
    cases hres : UTranslator.Add rules tr tag text true with
    | mk t1 e =>
      rw [hres] at hadd
      simp only at hadd
      obtain ⟨h1, h2⟩ := hadd
      subst h1
      obtain ⟨e1, he1⟩ := Option.isSome_iff_exists.mp h2
      subst he1
      rfl
  simp only [List.foldl_cons, List.foldl_nil] at ht
  rw [hstate, GoMap.get?_set, if_pos rfl] at ht
  rw [← Option.some.inj ht, hnone] at htext
  exact Option.noConfusion htext

theorem wellKeyed_recording : WellKeyed recording.translators := by
  intro k t h
  simp only [recording, GoMap.get?] at h
  split_ifs at h with h1 h2
  · rw [← Option.some.inj h, ← h1]
  · rw [← Option.some.inj h, ← h2]

/-! ## The claims on `BindValidate`, continued -/

/-- C11: when the body decodes (or decoding is skipped), `V` is set and
`V.Struct(dst)` returns an error in which `errors.As` finds no
`validator.ValidationErrors`, `BindValidate` returns (it does not panic) nil
details and that same error, without a call of `TranslatorFor` or `Translate`.
And for every call that returns, the details are non-nil exactly when the call
reached validation and `V.Struct(dst)` failed with field errors; a call fails
to return only there, when a `Translate` of a field error panics. -/
theorem BindValidate_other_error {T : Type} (L : VLib) (C : Codec L T) (g : Globals L)
    (r : Request) (dst : T) (v : L.Validate) (err : GoError)
    (hpass : decodePasses C r dst) (hV : g.V = some v)
    (hstruct : C.Struct v (afterDecode C r dst) = some err)
    (hother : errorsAsValidationErrors err = none) :
    ((BindValidate L C g r dst).panic = none ∧
      (BindValidate L C g r dst).details = none ∧
      (BindValidate L C g r dst).err = some err ∧
      Call.TranslatorFor ∉ (BindValidate L C g r dst).calls ∧
      ∀ fe, Call.Translate fe ∉ (BindValidate L C g r dst).calls) ∧
    ∀ (g1 : Globals L) (r1 : Request) (dst1 : T),
      ((BindValidate L C g1 r1 dst1).panic = none →
        ((BindValidate L C g1 r1 dst1).details ≠ none ↔
          (decodePasses C r1 dst1 ∧ ∃ v1 err1 ve, g1.V = some v1 ∧
            C.Struct v1 (afterDecode C r1 dst1) = some err1 ∧
            errorsAsValidationErrors err1 = some ve))) ∧
      ((BindValidate L C g1 r1 dst1).panic ≠ none ↔
        (decodePasses C r1 dst1 ∧ ∃ v1 err1 ve, g1.V = some v1 ∧
          C.Struct v1 (afterDecode C r1 dst1) = some err1 ∧
          errorsAsValidationErrors err1 = some ve ∧
          ∃ fe ∈ ve, ∃ msg, L.Translate v1 fe (TranslatorFor L g1 r1) = .panic msg)) := by
  constructor
  · rw [BindValidate_of_passes L C g r dst hpass]
    by_cases hlen : r.ContentLength = 0 <;>
      simp [BindValidate.validate, hV, hstruct, hother, hlen]
  · intro g1 r1 dst1
    exact ⟨BindValidate_details_iff L C g1 r1 dst1, BindValidate_panic_iff L C g1 r1 dst1⟩

/-- C11 at the body `true` decoded into a `bool`, which is not a struct. -/
theorem BindValidate_other_error_witness :
    ((BindValidate bareLib boolean ready (request 4 (ascii "true") none) false).panic = none ∧
      (BindValidate bareLib boolean ready (request 4 (ascii "true") none) false).details = none ∧
      (BindValidate bareLib boolean ready (request 4 (ascii "true") none) false).err =
        some .InvalidValidationError ∧
      Call.TranslatorFor ∉
        (BindValidate bareLib boolean ready (request 4 (ascii "true") none) false).calls ∧
      ∀ fe, Call.Translate fe ∉
        (BindValidate bareLib boolean ready (request 4 (ascii "true") none) false).calls) ∧
    ∀ (g1 : Globals bareLib) (r1 : Request) (dst1 : Bool),
      ((BindValidate bareLib boolean g1 r1 dst1).panic = none →
        ((BindValidate bareLib boolean g1 r1 dst1).details ≠ none ↔
          (decodePasses boolean r1 dst1 ∧ ∃ v1 err1 ve, g1.V = some v1 ∧
            boolean.Struct v1 (afterDecode boolean r1 dst1) = some err1 ∧
            errorsAsValidationErrors err1 = some ve))) ∧
      ((BindValidate bareLib boolean g1 r1 dst1).panic ≠ none ↔
        (decodePasses boolean r1 dst1 ∧ ∃ v1 err1 ve, g1.V = some v1 ∧
          boolean.Struct v1 (afterDecode boolean r1 dst1) = some err1 ∧
          errorsAsValidationErrors err1 = some ve ∧
          ∃ fe ∈ ve, ∃ msg,
            bareLib.Translate v1 fe (TranslatorFor bareLib g1 r1) = .panic msg)) :=
  BindValidate_other_error bareLib boolean ready (request 4 (ascii "true") none) false ()
    .InvalidValidationError (by decide) rfl (by decide) rfl

/-! ## The claims on `TranslatorFor` and `init` -/

/-- C12: over a registry with plain keys (as `init` leaves it), when the base
subtag of the `X-Request-Lang` header is a key of the registry, `TranslatorFor`
returns the translator registered for it, whatever the `Accept-Language`
header is set to. -/
theorem TranslatorFor_request_lang (L : VLib) (g : Globals L) (r : Request)
    (tr : L.Translator) (hkeys : PlainKeys g.translators)
    (hkey : g.translators.get? (baseSubtag (Header.Get r.Header "X-Request-Lang")) = some tr) :
    TranslatorFor L g r = some tr ∧
    ∀ al : List String,
      TranslatorFor L g { r with Header := r.Header.set "Accept-Language" al } = some tr := by
  constructor
  · rw [TranslatorFor_eq L g r hkeys, hkey]
  · intro al
    rw [TranslatorFor_eq L g _ hkeys]
    simp only [Header.Get_set_other r.Header "Accept-Language" "X-Request-Lang" al (by decide),
      hkey]

/-- C12 at `X-Request-Lang: ru-RU` with `Accept-Language: fr`, over the registry
of `init`: the `ru` translator. -/
theorem TranslatorFor_request_lang_witness :
    TranslatorFor exampleLib initialised (langRequest "ru-RU" "fr") = some "ru" ∧
    ∀ al : List String,
      TranslatorFor exampleLib initialised
        { langRequest "ru-RU" "fr" with
          Header := (langRequest "ru-RU" "fr").Header.set "Accept-Language" al } = some "ru" :=
  TranslatorFor_request_lang exampleLib initialised (langRequest "ru-RU" "fr") "ru"
    (by decide) rfl

/-- C13: over a registry with plain keys, when the `X-Request-Lang` header is
empty or its base subtag is no key of the registry, and the `Accept-Language`
header is present and parses to the tags `tag :: rest`, `TranslatorFor` looks
up the base subtag of `tag` only: it returns the translator registered for it,
and `translators["en"]` when there is none, whatever `rest` holds. -/
theorem TranslatorFor_accept_language (L : VLib) (g : Globals L) (r : Request)
    (tag : String) (rest : List String) (hkeys : PlainKeys g.translators)
    (hx : Header.Get r.Header "X-Request-Lang" = "" ∨
      g.translators.get? (baseSubtag (Header.Get r.Header "X-Request-Lang")) = none)
    (hal : Header.Get r.Header "Accept-Language" ≠ "")
    (hparse : L.ParseAcceptLanguage (Header.Get r.Header "Accept-Language") = .ok (tag :: rest)) :
    TranslatorFor L g r =
      match g.translators.get? (baseSubtag tag) with
      | some tr => some tr
      | none => g.translators.get? "en" := by
  have hnone : g.translators.get? (baseSubtag (Header.Get r.Header "X-Request-Lang")) = none := by
    rcases hx with h | h
    · rw [h]
      exact get?_empty_of_plainKeys _ hkeys
    · exact h
  rw [TranslatorFor_eq L g r hkeys, hnone]
  simp only [ne_eq, hal, not_false_eq_true, if_true, hparse]

/-- C13 at `Accept-Language: es;q=0.9,ja;q=0.5` (the `es` translator) and at
`Accept-Language: nl,ru;q=0.8` (`nl` is not registered, `ru` is not tried: the
`en` translator), over the registry of `init`. -/
theorem TranslatorFor_accept_language_witness :
    TranslatorFor exampleLib initialised (langRequest "" "es;q=0.9,ja;q=0.5") = some "es" ∧
    TranslatorFor exampleLib initialised (langRequest "xx" "nl,ru;q=0.8") = some "en" :=
  ⟨TranslatorFor_accept_language exampleLib initialised (langRequest "" "es;q=0.9,ja;q=0.5")
      "es" ["ja"] (by decide) (Or.inl rfl) (by decide) rfl,
    TranslatorFor_accept_language exampleLib initialised (langRequest "xx" "nl,ru;q=0.8")
      "nl" ["ru"] (by decide) (Or.inr rfl) (by decide) rfl⟩

/-- C14: the registry `init` leaves has the keys en, ru, de, zh, fr, es, lv, it,
pt, ja and ko, with an entry for `en`; over it `TranslatorFor` returns a
registry entry for every request, and `translators["en"]` when neither header
resolves to a key: `X-Request-Lang` is empty or its base subtag is no key, and
`Accept-Language` is empty or does not parse to a list whose first tag has a
key for its base subtag. -/
theorem init_registry (L : VLib) (I : InitLib L) (g0 g : Globals L)
    (hinit : init L I g0 = .ret g) :
    g.translators.keys = ["en", "ru", "de", "zh", "fr", "es", "lv", "it", "pt", "ja", "ko"] ∧
    (∃ en, g.translators.get? "en" = some en) ∧
    ∀ r : Request,
      (∃ k tr, g.translators.get? k = some tr ∧ TranslatorFor L g r = some tr) ∧
      ((Header.Get r.Header "X-Request-Lang" = "" ∨
          baseSubtag (Header.Get r.Header "X-Request-Lang") ∉ g.translators.keys) →
        (Header.Get r.Header "Accept-Language" = "" ∨
          ∀ tag rest,
            L.ParseAcceptLanguage (Header.Get r.Header "Accept-Language") = .ok (tag :: rest) →
            baseSubtag tag ∉ g.translators.keys) →
        TranslatorFor L g r = g.translators.get? "en") := by
  have hk := init_keys L I g0 g hinit
  have hkeys := plainKeys_of_keys _ hk
  have hen : ∃ en, g.translators.get? "en" = some en := by
    have hmem : "en" ∈ g.translators.keys := by
      rw [hk]
      decide
    rw [GoMap.mem_keys_iff] at hmem
    exact Option.isSome_iff_exists.mp hmem
  refine ⟨hk, hen, ?_⟩
  intro r
  rw [TranslatorFor_eq L g r hkeys]
  constructor
  · cases h1 : g.translators.get? (baseSubtag (Header.Get r.Header "X-Request-Lang")) with
    | some tr => exact ⟨_, tr, h1, rfl⟩
    | none =>
      simp only
      split
      · rename_i tr h2
        split at h2
        · split at h2
          · exact ⟨_, tr, h2, rfl⟩
          · simp at h2
        · simp at h2
      · obtain ⟨en, he⟩ := hen
        exact ⟨"en", en, he, he⟩
  · intro hx hal
    have h1 : g.translators.get? (baseSubtag (Header.Get r.Header "X-Request-Lang")) = none := by
      rcases hx with h | h
      · rw [h]
        exact get?_empty_of_plainKeys _ hkeys
      · exact GoMap.get?_eq_none_of_not_mem _ _ h
    rw [h1]
    simp only
    by_cases he : Header.Get r.Header "Accept-Language" = ""
    · simp [he]
    · have hal1 := hal.resolve_left he
      simp only [ne_eq, he, not_false_eq_true, if_true]
      cases hparse : L.ParseAcceptLanguage (Header.Get r.Header "Accept-Language") with
      | error e => rfl
      | ok tags =>
        cases tags with
        | nil => rfl
        | cons tag rest =>
          simp only [GoMap.get?_eq_none_of_not_mem _ _ (hal1 tag rest hparse)]

/-- C14 for the example library, from the package state before `init`. -/
theorem init_registry_witness :
    initialised.translators.keys =
      ["en", "ru", "de", "zh", "fr", "es", "lv", "it", "pt", "ja", "ko"] ∧
    (∃ en, initialised.translators.get? "en" = some en) ∧
    ∀ r : Request,
      (∃ k tr, initialised.translators.get? k = some tr ∧
        TranslatorFor exampleLib initialised r = some tr) ∧
      ((Header.Get r.Header "X-Request-Lang" = "" ∨
          baseSubtag (Header.Get r.Header "X-Request-Lang") ∉ initialised.translators.keys) →
        (Header.Get r.Header "Accept-Language" = "" ∨
          ∀ tag rest,
            exampleLib.ParseAcceptLanguage (Header.Get r.Header "Accept-Language") =
              .ok (tag :: rest) →
            baseSubtag tag ∉ initialised.translators.keys) →
        TranslatorFor exampleLib initialised r = initialised.translators.get? "en") :=
  init_registry exampleLib exampleInit (zeroState exampleLib) initialised rfl

/-! ## The claim on `RegisterCustomValidator` -/

/-- C15 fails: the message `{0`, a parameter without its closing brace, is
refused by the translator; `RegisterCustomValidator` returns nil all the same,
and the `en` translator holds no text for the tag, nor the validator a
translation func. -/
theorem RegisterCustomValidator_message_rejected :
    ∃ g1, RegisterCustomValidator (recordingLib textRules restrictedTag) recording "tz"
        (some validateTimeZone) [("en", openParam)] = .ret (g1, none) ∧
      g1.translators.get? "en" = some ⟨"en", []⟩ ∧
      (g1.V.map fun v => (v.transTagFunc.get? "en").isSome) = some false ∧
      ¬ Registered textRules restrictedTag g1 "tz" "en" openParam := by
  refine ⟨_, rfl, rfl, rfl, ?_⟩
  rintro ⟨⟨t, ht, htext⟩, _⟩
  have h1 : t = ⟨"en", []⟩ := (Option.some.inj ht).symm
  rw [h1] at htext
  simp [GoMap.get?] at htext

/-- C15 as amended: in the recording library, whatever texts the translator
takes, when `V` is set and `V.RegisterValidation(tag, fn)` succeeds,
`RegisterCustomValidator` returns nil for every `messages` (a map: its keys
are distinct) and leaves the keys of the registry as they are; and for each
pair whose locale is a key of the registry and whose message the translator
takes, the translation for `tag` is registered on that locale's translator. -/
theorem RegisterCustomValidator_registers (rules : TextRules) (restricted : String → Bool)
    (g : Globals (recordingLib rules restricted)) (v v1 : Validator) (tag : String)
    (fn : Option (FieldLevel → Bool)) (messages : GoMap String) (hV : g.V = some v)
    (hreg : Validator.RegisterValidation restricted v tag fn = .ret (v1, none))
    (hwk : WellKeyed g.translators) (hnodup : messages.keys.Nodup) :
    ∃ g1, RegisterCustomValidator (recordingLib rules restricted) g tag fn messages =
        .ret (g1, none) ∧
      g1.translators.keys = g.translators.keys ∧
      ∀ locale message, (locale, message) ∈ messages → locale ∈ g.translators.keys →
        rules.refuses message = none → Registered rules restricted g1 tag locale message := by
  refine ⟨_, RegisterCustomValidator_of_registered (recordingLib rules restricted) g tag fn
    messages v v1 hV hreg, ?_, ?_⟩
  · exact foldl_loop_keys (recordingLib rules restricted) tag messages (v1, g.translators)
  · intro locale message hmem hkey hacc
    have h := foldl_loop_registers rules restricted tag messages (v1, g.translators) hwk hnodup
      locale message hmem hkey hacc
    obtain ⟨h1, m, h2, h3⟩ := h
    exact ⟨h1, _, m, rfl, h2, h3⟩

/-- C15 as amended, at the rule `tz` with a message for `en` and one for `de`,
which is not in the registry. -/
theorem RegisterCustomValidator_registers_witness :
    ∃ g1, RegisterCustomValidator (recordingLib textRules restrictedTag) recording "tz"
        (some validateTimeZone)
        [("en", "Must be a valid IANA time zone"), ("de", "Ungültige Zeitzone")] =
          .ret (g1, none) ∧
      g1.translators.keys = recording.translators.keys ∧
      ∀ locale message,
        (locale, message) ∈
          [("en", "Must be a valid IANA time zone"), ("de", "Ungültige Zeitzone")] →
        locale ∈ recording.translators.keys →
        textRules.refuses message = none →
          Registered textRules restrictedTag g1 "tz" locale message :=
  RegisterCustomValidator_registers textRules restrictedTag recording ⟨[], []⟩ _ "tz"
    (some validateTimeZone) [("en", "Must be a valid IANA time zone"), ("de", "Ungültige Zeitzone")]
    rfl rfl wellKeyed_recording (by decide)

/-! ## The claims on `nohtml`, the envelope and `baseLocale` -/

/-- C16: the `nohtml` func accepts a string field value `s` exactly when
`html.EscapeString(s) == s`, and that is exactly when `s` contains none of
`<`, `>`, `&`, the single quote and the double quote. -/
theorem nohtml_accepts (s : String) :
    (nohtml ⟨.string s⟩ = true ↔ EscapeString s = s) ∧
    (EscapeString s = s ↔ ∀ c ∈ s.data, isHTMLSpecial c = false) := by
  refine ⟨by simp [nohtml, Value.String], ?_⟩
  rw [← flatMap_escapeChar_eq_self]
  obtain ⟨l⟩ := s
  exact ⟨fun h => congrArg String.data h, fun h => congrArg String.mk h⟩

/-- C17: `Error` sets `Content-Type` to `application/json`, writes `status` and
encodes an envelope with `Success` false, no `Data`, the error block
`{code, message, details}` and the request's correlation id; `JSON` does the
same with `Success` true, `Data` the payload and no error block. In every
envelope either of them encodes, `Success` is true exactly when there is no
error block. -/
theorem envelope_shape {α δ : Type} (GetReqID : Request → String) (r : Request) (status : Int)
    (code message : String) (details : Option δ) (data : Option α) :
    (Error GetReqID r status code message details : List (WriterCall α δ)) =
      [.HeaderSet "Content-Type" "application/json", .WriteHeader status,
        .Encode ⟨false, none, some ⟨code, message, details⟩, GetReqID r⟩] ∧
    (JSON GetReqID r status data : List (WriterCall α δ)) =
      [.HeaderSet "Content-Type" "application/json", .WriteHeader status,
        .Encode ⟨true, data, none, GetReqID r⟩] ∧
    ∀ env : Envelope α δ,
      (WriterCall.Encode env ∈
          (Error GetReqID r status code message details : List (WriterCall α δ)) ∨
        WriterCall.Encode env ∈ (JSON GetReqID r status data : List (WriterCall α δ))) →
      (env.Success = true ↔ env.Error = none) := by
  refine ⟨rfl, rfl, ?_⟩
  intro env h
  rcases h with h | h
  · simp only [Error, writeJSON, List.mem_cons, List.mem_singleton, reduceCtorEq, false_or,
      WriterCall.Encode.injEq, List.not_mem_nil, or_false] at h
    subst h
    simp
  · simp only [JSON, writeJSON, List.mem_cons, List.mem_singleton, reduceCtorEq, false_or,
      WriterCall.Encode.injEq, List.not_mem_nil, or_false] at h
    subst h
    simp

/-- C18 fails: for the tag `-x` the portion before the first `-` is empty, and
`baseLocale` returns the tag. -/
theorem baseLocale_leading_dash :
    baseSubtag "-x" = "" ∧ baseLocale "-x" = "-x" ∧ baseLocale "-x" ≠ baseSubtag "-x" := by
  decide

/-- C18 as amended: `baseLocale(tag)` is the portion of `tag` before its first
`-` unless `tag` begins with `-`, and then it is `tag`; it is `tag` when `tag`
contains no `-`. -/
theorem baseLocale_base_subtag (tag : String) :
    baseLocale tag = (if tag.data.head? = some '-' then tag else baseSubtag tag) ∧
    ('-' ∉ tag.data → baseLocale tag = tag) := by
  refine ⟨baseLocale_eq tag, ?_⟩
  intro h
  simp [baseLocale, IndexByte, h]

end Httpx
